import Mathlib

/-!
Verification development for the PF updates aggregator
(`pf_updates.py` / `main.py`): a shallow embedding of the reconciliation
engine (field-canonicalised rows, rating-text parsing, name-identity
normalisation, the per-date merge folds, backfill augmentation and the
surrounding fetch error handling), together with theorems checking the
natural-language specification against it.

Modelling conventions, used throughout:
* Python `dict`s keyed by integers are embedded as a `Dict` structure
  holding the keys in insertion order plus a lookup function.
* Upstream HTTP calls are oracles: each call's outcome is a parameter of
  type `Except String _` (`.error` = the Python call raised, `.ok` = it
  returned), so `try/except` absorption sites are explicit matches.
* Parsed update timestamps (`_to_mel_dt` results, compared in the source
  through their `isoformat()` strings, whose lexicographic order agrees
  with the chronological order in a fixed zone) are abstracted to `Nat`;
  `none` stands for an absent or unparsable timestamp.
* Python truthiness on optional strings (`if not x:`) is `strFalsy`:
  `None` and `""` are falsy.
-/

/-! ## Small Python-style helpers -/

/-- Python truthiness of an optional string: `None` and `""` are falsy. -/
def strFalsy : Option String → Bool
  | none => true
  | some s => s = ""

/-- `_parse_int`: an integer-convertible value parses to itself except that
`0` is mapped to `None`; a non-convertible value is `None`.  The raw field
is embedded as `Option Int` (`none` = absent or not `int`-convertible). -/
def parseInt : Option Int → Option Int
  | none => none
  | some v => if v = 0 then none else some v

/-- Whitespace as recognised by Python's `str.strip` / `\s` (ASCII part). -/
def isSpaceChar (c : Char) : Bool :=
  c = ' ' || c = '\t' || c = '\n' || c = '\r' || c = '\x0b' || c = '\x0c'

/-- Characters matched by `\w` / relevant to `\b` (ASCII part). -/
def isWordChar (c : Char) : Bool :=
  c.isAlpha || c.isDigit || c = '_'

def trimChars (l : List Char) : List Char :=
  ((l.dropWhile isSpaceChar).reverse.dropWhile isSpaceChar).reverse

/-- Python `str.strip()` (ASCII whitespace). -/
def pyStrip (s : String) : String := String.mk (trimChars s.toList)

/-- Python `str.lower()` restricted to ASCII (all strings in this
development are ASCII apart from U+2019, which `lower` leaves alone). -/
def lowerStr (s : String) : String := String.mk (s.toList.map Char.toLower)

/-! ## Rating parser (`_display_track_condition`) -/

/-- Drop characters up to and including the first `')'`;
`none` when there is no `')'` (the regex `\([^)]*\)` then has no match
starting at the already-seen `'('`). -/
def dropThroughClose : List Char → Option (List Char)
  | [] => none
  | c :: rest => if c = ')' then some rest else dropThroughClose rest

/-- `re.sub(r"\([^)]*\)", "", s)` with an explicit fuel argument (every
step consumes at least one character, so `l.length` fuel suffices; the
fuel keeps the recursion structural so that terms evaluate in the
kernel).  An unmatched `'('` is kept. -/
def removeBrkFuel : Nat → List Char → List Char
  | _, [] => []
  | 0, l => l
  | Nat.succ f, c :: rest =>
    if c = '(' then
      match dropThroughClose rest with
      | some rest' => removeBrkFuel f rest'
      | none => c :: removeBrkFuel f rest
    else c :: removeBrkFuel f rest

/-- Remove every non-overlapping parenthesised group. -/
def removeBracketed (l : List Char) : List Char := removeBrkFuel l.length l

/-- Does the lowered, stripped candidate fullmatch
`(?i)(synthetic|polytrack|tapeta|all\s*weather|aw|syn)`? -/
def syntheticAlias (s : String) : Bool :=
  let ls := lowerStr s
  ls = "synthetic" || ls = "polytrack" || ls = "tapeta" || ls = "aw" || ls = "syn" ||
    (match ls.toList with
     | 'a' :: 'l' :: 'l' :: rest => rest.dropWhile isSpaceChar = "weather".toList
     | _ => false)

/-- Letter table of `_display_track_condition` (`g/s/h/f/d/l`). -/
def ratingWordOfLetter (c : Char) : Option String :=
  match c.toLower with
  | 'g' => some "Good"
  | 's' => some "Soft"
  | 'h' => some "Heavy"
  | 'f' => some "Firm"
  | 'd' => some "Dead"
  | 'l' => some "Slow"
  | _ => none

/-- `re.fullmatch(r"\s*([GFHDSLgfhdsl])\s*([0-9]{1,2})\s*", s)`, returning
`{Word}{digits}` through the letter table on success. -/
def codeMatch (l : List Char) : Option String :=
  match l.dropWhile isSpaceChar with
  | [] => none
  | c :: rest =>
    match ratingWordOfLetter c with
    | none => none
    | some w =>
      let afterSp := rest.dropWhile isSpaceChar
      let ds := afterSp.takeWhile Char.isDigit
      let tail := afterSp.dropWhile Char.isDigit
      if (ds.length = 1 || ds.length = 2) && tail.all isSpaceChar then
        some (w ++ String.mk ds)
      else none

/-- The six alternatives of the word regex, in alternation order. -/
def ratingWords : List String := ["Good", "Soft", "Heavy", "Firm", "Dead", "Slow"]

/-- Case-insensitive literal match of `w` at the head of `l`; returns the
rest of `l` on success. -/
def matchCI : List Char → List Char → Option (List Char)
  | [], l => some l
  | _ :: _, [] => none
  | w :: ws, c :: cs => if c.toLower = w.toLower then matchCI ws cs else none

/-- After a matched word: `\s*([0-9]{1,2})\b` — greedy spaces, one or two
digits, and a word boundary after them. -/
def digitsAfterWord (l : List Char) : Option String :=
  let afterSp := l.dropWhile isSpaceChar
  let ds := afterSp.takeWhile Char.isDigit
  let tail := afterSp.dropWhile Char.isDigit
  if (ds.length = 1 || ds.length = 2) &&
      (match tail with | [] => true | c :: _ => !isWordChar c) then
    some (String.mk ds)
  else none

/-- Try every alternative at one position (alternation order). -/
def tryWordsAt (l : List Char) : List String → Option String
  | [] => none
  | w :: ws =>
    match matchCI w.toList l with
    | some rest =>
      match digitsAfterWord rest with
      | some ds => some (w ++ ds)
      | none => tryWordsAt l ws
    | none => tryWordsAt l ws

/-- `re.search(r"(?i)\b(Good|Soft|Heavy|Firm|Dead|Slow)\s*([0-9]{1,2})\b", s)`:
leftmost position wins; the `\b` before the group holds when the previous
character is absent or not a word character.  `m.group(1).capitalize()` of a
case-insensitive match of one of the six words is that word itself, so the
result is `{Word}{digits}`. -/
def wordSearch (prev : Option Char) : List Char → Option String
  | [] => none
  | c :: rest =>
    let here :=
      if (match prev with | none => true | some p => !isWordChar p) then
        tryWordsAt (c :: rest) ratingWords
      else none
    match here with
    | some r => some r
    | none => wordSearch (some c) rest

/-- `_display_track_condition` on an actual string (the `if not raw` guard
is at `displayTrackCondition`). -/
def displayCore (raw : String) : Option String :=
  let s := pyStrip raw
  let s := String.mk (trimChars (removeBracketed s.toList))
  if syntheticAlias s then some "Synthetic"
  else match codeMatch s.toList with
    | some r => some r
    | none => wordSearch none s.toList

/-- `_display_track_condition`: `None`/empty input yields `None`. -/
def displayTrackCondition (raw : Option String) : Option String :=
  match raw with
  | none => none
  | some r => if r = "" then none else displayCore r

/-! ## Identity normaliser (`_norm_name`) -/

/-- `unicodedata.normalize("NFKD", ·)` per character, restricted to the
character set appearing in this development: ASCII characters and
U+2019 (right single quotation mark) have no decomposition; the few listed
Latin-1 letters decompose to base letter plus combining mark. -/
def nfkdChar (c : Char) : List Char :=
  match c with
  | 'á' => ['a', '́']
  | 'é' => ['e', '́']
  | 'í' => ['i', '́']
  | 'ó' => ['o', '́']
  | 'ú' => ['u', '́']
  | 'à' => ['a', '̀']
  | 'è' => ['e', '̀']
  | 'ö' => ['o', '̈']
  | 'ü' => ['u', '̈']
  | 'ñ' => ['n', '̃']
  | _ => [c]

/-- `unicodedata.combining(ch) != 0`, restricted likewise: the combining
diacritical marks block. -/
def isCombiningChar (c : Char) : Bool :=
  0x300 ≤ c.toNat && c.toNat ≤ 0x36F

/-- Replace each maximal run of characters not satisfying `keep` by a
single space (the shape of `re.sub(r"[^…]+", " ", s)`); `inRun` records
whether the previous character was part of such a run. -/
def collapseRuns (keep : Char → Bool) (inRun : Bool) : List Char → List Char
  | [] => []
  | c :: rest =>
    if keep c then c :: collapseRuns keep false rest
    else if inRun then collapseRuns keep true rest
    else ' ' :: collapseRuns keep true rest

/-- `re.sub(r"[^a-z0-9]+", " ", s)`. -/
def collapseNonAlnum (l : List Char) : List Char :=
  collapseRuns (fun c => c.isLower || c.isDigit) false l

/-- `re.sub(r"\s+", " ", s)`. -/
def collapseSpaces (l : List Char) : List Char :=
  collapseRuns (fun c => !isSpaceChar c) false l

/-- `_norm_name`: NFKD-decompose, drop combining marks, lowercase, collapse
non-alphanumeric runs to one space, strip; an empty result is `None`. -/
def normName (name : Option String) : Option String :=
  match name with
  | none => none
  | some s =>
    if s = "" then none
    else
      let cs := (s.toList.flatMap nfkdChar).filter (fun c => !isCombiningChar c)
      let cs := cs.map Char.toLower
      let cs := trimChars (collapseNonAlnum cs)
      let cs := collapseSpaces cs
      if cs = [] then none else some (String.mk cs)

/-! ## Insertion-ordered integer-keyed dictionaries (Python `dict`) -/

/-- A Python `dict` with integer keys: the keys in insertion order plus a
lookup function. -/
structure Dict (α : Type) where
  keys : List Int
  find : Int → Option α

def Dict.empty {α : Type} : Dict α := ⟨[], fun _ => none⟩

/-- `d[k] = v`. -/
def Dict.set {α : Type} (d : Dict α) (k : Int) (v : α) : Dict α :=
  ⟨if (d.find k).isSome then d.keys else d.keys ++ [k],
   fun j => if j = k then some v else d.find j⟩

/-- `d.setdefault(k, v)`: the stored value (inserting `v` first when the
key is absent) together with the updated dict. -/
def Dict.setdefaultGet {α : Type} (d : Dict α) (k : Int) (v : α) : α × Dict α :=
  match d.find k with
  | some w => (w, d)
  | none => (v, d.set k v)

/-! ## Row and result types -/

/-- The `scratched` field as it reaches the fold: absent, a JSON boolean,
or a string (other raw types behave like `absent` at the `is False`
check). -/
inductive PyScr where
  | non : PyScr
  | boolv : Bool → PyScr
  | strv : String → PyScr
deriving DecidableEq, Repr

/-- A canonicalised condition row (`_canonise` output as consumed by the
conditions pass and `_extract_track_condition`): the canonical meeting
fields plus every rating candidate key the extractor probes.  `updated_at`
is the parsed timestamp (see the module comment). -/
structure CondRow where
  meeting_id : Option Int
  venue : Option String
  state : Option String
  meeting_date : Option String
  weather : Option String
  rail : Option String
  updated_at : Option Nat
  track_condition : Option String
  trackrating : Option String
  track_rating : Option String
  rating : Option String
  condition : Option String
  rating_code : Option String
  track_condition_code : Option String
  rating_short : Option String
  going : Option String
  going_desc : Option String
  going_description : Option String
  surface : Option String
deriving DecidableEq, Repr

/-- A canonicalised scratching row as consumed by the scratchings pass. -/
structure ScrRow where
  meeting_id : Option Int
  race_number : Option Int
  runner_number : Option Int
  runner_id : Option Int
  horse_name : Option String
  scratched : PyScr
  updated_at : Option Nat
  venue : Option String
  state : Option String
  meeting_date : Option String
deriving DecidableEq, Repr

/-- A stored `conditions` object. -/
structure Cond where
  weather : Option String
  track_condition : Option String
  rail : Option String
  updated_at : Option Nat
deriving DecidableEq, Repr

/-- A stored scratched-runner entry. -/
structure Entry where
  runner_number : Option Int
  horse_name : Option String
  runner_id : Option Int
  updated_at : Option Nat
deriving DecidableEq, Repr

/-- A meeting under construction: races are a dict from race number to the
race's scratchings list. -/
structure Meeting where
  meeting_id : Int
  venue : Option String
  state : Option String
  meeting_date : Option String
  conditions : Option Cond
  races : Dict (List Entry)

def Meetings : Type := Dict Meeting

/-! ## Condition extraction and the conditions pass -/

/-- `(str(venue or "").strip().lower() or None)`. -/
def venueNormKey (venue : Option String) : Option String :=
  let s := lowerStr (pyStrip (venue.getD ""))
  if s = "" then none else some s

/-- The candidate keys probed by `_extract_track_condition`, in order. -/
def condCandidates (c : CondRow) : List (Option String) :=
  [c.track_condition, c.trackrating, c.track_rating, c.rating, c.condition,
   c.rating_code, c.track_condition_code, c.rating_short, c.going, c.going_desc,
   c.going_description, c.surface]

def extractGo (vn : Option String) : List (Option String) → Option String
  | [] => none
  | cand :: rest =>
    if strFalsy cand then extractGo vn rest
    else if vn = some (lowerStr (pyStrip (cand.getD ""))) then extractGo vn rest
    else match displayTrackCondition cand with
      | some tc => some tc
      | none => extractGo vn rest

/-- `_extract_track_condition`: first candidate that is truthy, is not the
bare venue, and parses. -/
def extractTrackCondition (c : CondRow) (venue : Option String) : Option String :=
  extractGo (venueNormKey venue) (condCandidates c)

/-- The meeting skeleton seeded by a condition row
(`meetings.setdefault(mid, {...})`). -/
def freshMeetingOfCond (mid : Int) (c : CondRow) : Meeting :=
  ⟨mid, c.venue, c.state, c.meeting_date, none, Dict.empty⟩

/-- `if not prev_iso or (updated and updated.isoformat() > prev_iso)`. -/
def replaceCond (prev : Cond) (updated : Option Nat) : Bool :=
  match prev.updated_at with
  | none => true
  | some p => match updated with
    | none => false
    | some u => p < u

/-- `if not m.get(f): m[f] = row.get(f)` (truthiness backfill). -/
def backfillStr (cur new : Option String) : Option String :=
  if strFalsy cur then new else cur

/-- One condition row folded into the per-meeting map
(`fetch_updates_for_date`, conditions pass). -/
def condStep (ms : Meetings) (c : CondRow) : Meetings :=
  match parseInt c.meeting_id with
  | none => ms
  | some mid =>
    let p := ms.setdefaultGet mid (freshMeetingOfCond mid c)
    let m := p.1
    let ms := p.2
    let updated := c.updated_at
    let tc := extractTrackCondition c m.venue
    let cobj : Cond := ⟨c.weather, tc, c.rail, updated⟩
    let m := match m.conditions with
      | none => { m with conditions := some cobj }
      | some prev =>
        if replaceCond prev updated then { m with conditions := some cobj } else m
    let m := { m with venue := backfillStr m.venue c.venue,
                      state := backfillStr m.state c.state,
                      meeting_date := backfillStr m.meeting_date c.meeting_date }
    ms.set mid m

def condFold (ms : Meetings) (cs : List CondRow) : Meetings := cs.foldl condStep ms

/-! ## The scratchings pass -/

/-- `is_scr.lower() in {"1", "true", "y", "yes"}`. -/
def scrTruthyStr (s : String) : Bool :=
  let l := lowerStr s
  l = "1" || l = "true" || l = "y" || l = "yes"

/-- `if is_scr is False: continue` (after the string coercion): the row is
dropped exactly when the marker is boolean `False` or a string outside the
truthy set. -/
def scrDropped (v : PyScr) : Bool :=
  match v with
  | .boolv b => !b
  | .strv s => !scrTruthyStr s
  | .non => false

/-- The entry built from a scratching row. -/
def entryOfRow (s : ScrRow) : Entry :=
  ⟨parseInt s.runner_number, s.horse_name, parseInt s.runner_id, s.updated_at⟩

/-- `(_norm_name(e.get("horse_name")) or "")`. -/
def entryNameKey (e : Entry) : String := (normName e.horse_name).getD ""

/-- Index of the last element satisfying `p` (a Python dict comprehension
`{key(e): i for i, e in enumerate(l)}` keeps the last index per key). -/
def lastIdxWhere {α : Type} (p : α → Bool) : List α → Option Nat
  | [] => none
  | a :: rest =>
    match lastIdxWhere p rest with
    | some j => some (j + 1)
    | none => if p a then some 0 else none

/-- The runner-id fallback of the upsert (`idx_by_id`), used when no
normalized-name key matched. -/
def upsertById (l : List Entry) (e : Entry) : List Entry :=
  match e.runner_id with
  | none => l ++ [e]
  | some rid =>
    match lastIdxWhere (fun x => x.runner_id = some rid) l with
    | some i => l.set i e
    | none => l ++ [e]

/-- The upsert of the scratchings pass: keyed by normalized name, falling
back to runner id, else append. -/
def upsertEntry (l : List Entry) (e : Entry) : List Entry :=
  match lastIdxWhere (fun x => entryNameKey x = entryNameKey e) l with
  | some i => l.set i e
  | none => upsertById l e

/-- The meeting skeleton seeded by a scratching row. -/
def freshMeetingOfScr (mid : Int) (s : ScrRow) : Meeting :=
  ⟨mid, s.venue, s.state, s.meeting_date, none, Dict.empty⟩

/-- One scratching row folded into the per-meeting map
(`fetch_updates_for_date`, scratchings pass).  Note that the meeting and
the (possibly empty) race are created before the not-scratched and
missing-identity checks, mirroring the `setdefault` calls preceding the
`continue`s. -/
def scrStep (ms : Meetings) (s : ScrRow) : Meetings :=
  match parseInt s.meeting_id with
  | none => ms
  | some mid =>
    match parseInt s.race_number with
    | none => ms
    | some rno =>
      let p := ms.setdefaultGet mid (freshMeetingOfScr mid s)
      let m := p.1
      let q := m.races.setdefaultGet rno []
      let rl := q.1
      let m := { m with races := q.2 }
      let ms := p.2.set mid m
      if scrDropped s.scratched then ms
      else
        let e := entryOfRow s
        if strFalsy e.horse_name && e.runner_id.isNone then ms
        else
          let m := { m with races := m.races.set rno (upsertEntry rl e) }
          let m := { m with venue := backfillStr m.venue s.venue,
                            state := backfillStr m.state s.state,
                            meeting_date := backfillStr m.meeting_date s.meeting_date }
          ms.set mid m

def scrFold (ms : Meetings) (ss : List ScrRow) : Meetings := ss.foldl scrStep ms

/-- Both folds from an empty map, in source order (conditions first). -/
def pipelineFold (cs : List CondRow) (ss : List ScrRow) : Meetings :=
  scrFold (condFold Dict.empty cs) ss

/-! ## Observation functions -/

/-- The scratchings list of one race (empty when absent). -/
def entriesOf (ms : Meetings) (mid rno : Int) : List Entry :=
  match ms.find mid with
  | none => []
  | some m => (m.races.find rno).getD []

/-- The conditions snapshot of one meeting (flattened). -/
def condOf (ms : Meetings) (mid : Int) : Option Cond :=
  (ms.find mid).bind Meeting.conditions

/-! ## Stable sorting (Python `list.sort` / `sorted`) -/

/-- Insert `a` before the first element `b` with `le a b`; together with
`sortBy` this is a stable insertion sort, matching Python's stable sort
on the embedded comparison keys. -/
def insSorted {α : Type} (le : α → α → Bool) (a : α) : List α → List α
  | [] => [a]
  | b :: bs => if le a b then a :: b :: bs else b :: insSorted le a bs

def sortBy {α : Type} (le : α → α → Bool) : List α → List α
  | [] => []
  | a :: as => insSorted le a (sortBy le as)

/-- Code-point lexicographic comparison (Python string `<=`). -/
def charListLe : List Char → List Char → Bool
  | [], _ => true
  | _ :: _, [] => false
  | a :: as, b :: bs =>
    if a.toNat < b.toNat then true
    else if a.toNat = b.toNat then charListLe as bs
    else false

def strLeB (a b : String) : Bool := charListLe a.toList b.toList

def intLeB (a b : Int) : Bool := a ≤ b

/-- The scratchings sort key of `_augment_scratchings_from_fields`:
`(x["runner_number"] is None, x["runner_number"] or 0,
(x["horse_name"] or "").lower())`, compared lexicographically
(`False < True`). -/
def entrySortLe (a b : Entry) : Bool :=
  let a1 := a.runner_number.isNone
  let b1 := b.runner_number.isNone
  let a2 := a.runner_number.getD 0
  let b2 := b.runner_number.getD 0
  let a3 := lowerStr (a.horse_name.getD "")
  let b3 := lowerStr (b.horse_name.getD "")
  (!a1 && b1) || (a1 = b1 && (a2 < b2 || (a2 = b2 && strLeB a3 b3)))

/-! ## Backfill index records and scratchings augmentation -/

/-- One record of `_FIELDS_ID_INDEX[meeting_id]` (built by `_index_add`). -/
structure FieldsRec where
  runner_number : Option Int
  horse_name : Option String
  race_number : Option Int
  scratched : Option Bool
  runner_id : Option Int
deriving DecidableEq, Repr

/-- `_exists_in_scratch_list`: match by truthy runner id, else by
non-empty normalized name. -/
def existsInScratchList (lst : List Entry) (rid : Int) (nm : Option String) : Bool :=
  let nkey := (normName nm).getD ""
  lst.any (fun e =>
    (decide (rid ≠ 0) && decide (e.runner_id = some rid)) ||
    (decide (nkey ≠ "") && decide (normName (some (e.horse_name.getD "")) = some nkey)))

/-- `sorted(set(xs))`. -/
def sortedDedup (l : List Int) : List Int := sortBy intLeB l.dedup

/-- `_augment_scratchings_from_fields`, one meeting: for every race number
known to the meeting or the index, append index records marked scratched
whose identity is not yet in the race's list, then re-sort the list.
`recs` is `_FIELDS_ID_INDEX[mid].items()` in insertion order (the index
population fetches are oracled away into this input). -/
def augmentMeeting (recs : List (Int × FieldsRec)) (m : Meeting) : Meeting :=
  let rnos := sortedDedup (m.races.keys ++ recs.filterMap (fun p => p.2.race_number))
  rnos.foldl (fun m rno =>
    let q := m.races.setdefaultGet rno []
    let m := { m with races := q.2 }
    let rl := recs.foldl (fun rl p =>
      if p.2.race_number = some rno then
        if p.2.scratched = some true then
          if existsInScratchList rl p.1 p.2.horse_name then rl
          else rl ++ [⟨p.2.runner_number, p.2.horse_name, some p.1, none⟩]
        else rl
      else rl) q.1
    { m with races := m.races.set rno (sortBy entrySortLe rl) }) m

/-- `_augment_scratchings_from_fields` over all meetings. -/
def augmentScratchings (idx : Int → List (Int × FieldsRec)) (ms : Meetings) : Meetings :=
  ms.keys.foldl (fun acc mid =>
    match acc.find mid with
    | none => acc
    | some m => acc.set mid (augmentMeeting (idx mid) m)) ms

/-! ## Conditions backfill (`_backfill_track_condition_for_meetings`) -/

/-- Per-meeting outcomes of the three backfill lookups
(`Updates(meetingId)`, then JSON, then CSV); `.error` is a raised task
exception (absorbed by `return_exceptions=True`). -/
structure CondBackOracle where
  upd : Int → Except String (Option String)
  jsonq : Int → Except String (Option String)
  csvq : Int → Except String (Option String)

/-- `if isinstance(res, Exception) or not res: continue`. -/
def condResUsable : Except String (Option String) → Option String
  | .error _ => none
  | .ok none => none
  | .ok (some s) => if s = "" then none else some s

/-- Stage 0 write: seed a conditions object, or override the rating if
different. -/
def setTrackCondOverride (m : Meeting) (res : String) : Meeting :=
  match m.conditions with
  | none => { m with conditions := some ⟨none, some res, none, none⟩ }
  | some co =>
    if co.track_condition = some res then m
    else { m with conditions := some { co with track_condition := some res } }

/-- Stage 1/2 write: seed, or unconditionally set the rating. -/
def setTrackCond (m : Meeting) (res : String) : Meeting :=
  match m.conditions with
  | none => { m with conditions := some ⟨none, some res, none, none⟩ }
  | some co => { m with conditions := some { co with track_condition := some res } }

/-- `not (m.get("conditions") and m["conditions"].get("track_condition"))`. -/
def condMissing (m : Meeting) : Bool :=
  match m.conditions with
  | none => true
  | some co => strFalsy co.track_condition

/-- One iteration of a backfill stage over one meeting id. -/
def backfillStepF (get : Int → Except String (Option String)) (override : Bool)
    (acc : Meetings) (mid : Int) : Meetings :=
  match condResUsable (get mid) with
  | none => acc
  | some res =>
    match acc.find mid with
    | none => acc
    | some m =>
      acc.set mid (if override then setTrackCondOverride m res else setTrackCond m res)

def backfillStage (get : Int → Except String (Option String)) (override : Bool)
    (mids : List Int) (ms : Meetings) : Meetings :=
  mids.foldl (backfillStepF get override) ms

/-- `_backfill_track_condition_for_meetings`: Updates lookup with override,
then JSON, then CSV for meetings still missing a rating. -/
def backfillTrackConditions (bo : CondBackOracle) (ms : Meetings) : Meetings :=
  let ms := backfillStage bo.upd true ms.keys ms
  let needJ := ms.keys.filter (fun mid =>
    match ms.find mid with | some m => condMissing m | none => false)
  let ms := backfillStage bo.jsonq false needJ ms
  let needC := ms.keys.filter (fun mid =>
    match ms.find mid with | some m => condMissing m | none => false)
  backfillStage bo.csvq false needC ms

/-! ## Date filter (`_same_day_mel`) -/

/-- `re.match(r"^\d{4}-\d{2}-\d{2}$", s)`. -/
def isDateShape (s : String) : Bool :=
  match s.toList with
  | [a, b, c, d, e, f, g, h, i, j] =>
    a.isDigit && b.isDigit && c.isDigit && d.isDigit && e = '-' &&
      f.isDigit && g.isDigit && h = '-' && i.isDigit && j.isDigit
  | _ => false

/-- `_same_day_mel`: a well-formed own date must equal the target; absent
or non-date-shaped values pass. -/
def sameDayMel (md : Option String) (target : String) : Bool :=
  if target = "" then true
  else match md with
    | none => true
    | some d => if d ≠ "" && isDateShape d then d = target else true

/-! ## Upstream fetcher (`_pf_get_json` / `_pf_get_csv`) -/

/-- The credential-placement loop of `_pf_get_json`: each attempt's
outcome is given (`.ok rows` = a 200 with a payload that unwrapped;
`.error e` = a 401/403, a fatal status, a bad embedded status code or a
raised exception — every such path records `last_err` and continues).
When every placement fails the call raises, carrying the last error. -/
def pfJsonGo {α : Type} (url : String) :
    List (Except String (List α)) → Option String → Except String (List α)
  | [], lastErr =>
    .error ("PF JSON auth/parse failed for " ++ url ++ ": " ++
      (match lastErr with | some e => e | none => "None"))
  | a :: rest, _ =>
    match a with
    | .ok rows => .ok rows
    | .error e => pfJsonGo url rest (some e)

def pfGetJsonModel {α : Type} (url : String)
    (attempts : List (Except String (List α))) : Except String (List α) :=
  pfJsonGo url attempts none

/-- The identical loop of `_pf_get_csv` — except that exhausting all
placements returns `[]` (`return []` after the loop) instead of raising. -/
def pfCsvGo {α : Type} :
    List (Except String (List α)) → Option String → Except String (List α)
  | [], _ => .ok []
  | a :: rest, _ =>
    match a with
    | .ok rows => .ok rows
    | .error e => pfCsvGo rest (some e)

def pfGetCsvModel {α : Type} (attempts : List (Except String (List α))) :
    Except String (List α) :=
  pfCsvGo attempts none

/-! ## Per-date fetch helpers and the public entry point -/

/-- Dedup key of `_fetch_updates_scratchings_for_date` (raw canonical
values). -/
def scrKey (c : ScrRow) : Option Int × Option Int × Option Int × Option String :=
  (c.meeting_id, c.race_number, c.runner_id, normName c.horse_name)

/-- Dedup key of `_fetch_updates_conditions_for_date`. -/
def condKey (c : CondRow) :
    Option Int × Option Nat × Option String × Option String × Option String :=
  (c.meeting_id, c.updated_at, c.track_condition, c.rating, c.condition)

/-- `_fetch_updates_scratchings_for_date`: each parameter-shape try either
contributes rows (deduplicated by key, first occurrence kept) or fails and
is skipped (`except Exception: continue`). -/
def fetchScrForDate (tries : List (Except String (List ScrRow))) : List ScrRow :=
  (tries.foldl (fun acc t =>
    match t with
    | .error _ => acc
    | .ok rows => rows.foldl (fun acc r =>
        if acc.2.contains (scrKey r) then acc
        else (acc.1 ++ [r], acc.2 ++ [scrKey r])) acc) (([], []) : List ScrRow × _)).1

/-- `_fetch_updates_conditions_for_date`, likewise. -/
def fetchCondForDate (tries : List (Except String (List CondRow))) : List CondRow :=
  (tries.foldl (fun acc t =>
    match t with
    | .error _ => acc
    | .ok rows => rows.foldl (fun acc r =>
        if acc.2.contains (condKey r) then acc
        else (acc.1 ++ [r], acc.2 ++ [condKey r])) acc) (([], []) : List CondRow × _)).1

/-- Materialised output shapes (`meetings_out`). -/
structure RaceOut where
  race_number : Int
  scratchings : List Entry
deriving DecidableEq, Repr

structure MeetingOut where
  meeting_id : Int
  venue : Option String
  state : Option String
  conditions : Option Cond
  races : List RaceOut
deriving DecidableEq, Repr

structure Output where
  date : String
  meetings : List MeetingOut
deriving DecidableEq, Repr

/-- The materialise step: meetings in dict order, races sorted ascending
by race number. -/
def materialize (target : String) (ms : Meetings) : Output :=
  ⟨target, ms.keys.filterMap (fun mid =>
    (ms.find mid).map (fun m =>
      ⟨mid, m.venue, m.state, m.conditions,
        (sortBy intLeB m.races.keys).filterMap (fun rno =>
          (m.races.find rno).map (fun rl => ⟨rno, rl⟩))⟩))⟩

/-- Every upstream interaction of one `fetch_updates_for_date` run. -/
structure RunOracle where
  scrTries : List (Except String (List ScrRow))
  condTries : List (Except String (List CondRow))
  fieldsIdx : Int → List (Int × FieldsRec)
  condBack : CondBackOracle

/-- The state built by one `fetch_updates_for_date` run: fetch both
primary feeds (each try's failure absorbed), filter by date, fold
conditions then scratchings, augment scratchings from the fields index,
backfill track conditions. -/
def aggregateState (o : RunOracle) (target : String) : Meetings :=
  let scratches := fetchScrForDate o.scrTries
  let conds := fetchCondForDate o.condTries
  let scratchesF := scratches.filter (fun s => sameDayMel s.meeting_date target)
  let condF := conds.filter (fun c => sameDayMel c.meeting_date target)
  let ms := condFold Dict.empty condF
  let ms := scrFold ms scratchesF
  let ms := augmentScratchings o.fieldsIdx ms
  backfillTrackConditions o.condBack ms

/-- `fetch_updates_for_date`: the materialised aggregate.  The `Except`
result type marks where a raised exception would surface to the caller;
every upstream failure having been absorbed upstream, the run always
returns `.ok`. -/
def fetchUpdatesForDate (o : RunOracle) (target : String) : Except String Output :=
  .ok (materialize target (aggregateState o target))

/-- At least one of name and runner id is present (stored-entry identity). -/
def entryHasIdentity (e : Entry) : Bool :=
  !strFalsy e.horse_name || e.runner_id.isSome

/-- An all-absent condition row, the base for concrete test rows. -/
def blankCondRow : CondRow :=
  ⟨none, none, none, none, none, none, none, none, none, none, none, none,
   none, none, none, none, none, none, none⟩

/-- An all-absent scratching row, the base for concrete test rows. -/
def blankScrRow : ScrRow :=
  ⟨none, none, none, none, none, PyScr.non, none, none, none, none⟩

/-- The conditions object a row builds (`cond_obj`), with the venue used
for the rating extraction made explicit. -/
def mkCondObj (c : CondRow) (venue : Option String) : Cond :=
  ⟨c.weather, extractTrackCondition c venue, c.rail, c.updated_at⟩

/-- Every entry of every race of one meeting has an identity. -/
def meetingEntriesOK (m : Meeting) : Prop :=
  ∀ rno : Int, ∀ e ∈ (m.races.find rno).getD [], entryHasIdentity e = true

/-- Every stored entry of the whole map has an identity. -/
def stateEntriesOK (ms : Meetings) : Prop :=
  ∀ mid rno : Int, ∀ e ∈ entriesOf ms mid rno, entryHasIdentity e = true

/-- Compatibility of two condition rows for order independence: rows for
the same meeting must carry the same venue and either be equal or carry
distinct parsed timestamps. -/
def condCompat (c1 c2 : CondRow) : Prop :=
  parseInt c1.meeting_id ≠ none → parseInt c1.meeting_id = parseInt c2.meeting_id →
    c1.venue = c2.venue ∧
    (c1 = c2 ∨ (c1.updated_at ≠ none ∧ c2.updated_at ≠ none ∧
      c1.updated_at ≠ c2.updated_at))

/-- A scratching row that parses, survives the drop checks, and lands in
meeting `mid`, race `rno`. -/
def scrRelevant (r : ScrRow) (mid rno : Int) : Prop :=
  parseInt r.meeting_id = some mid ∧ parseInt r.race_number = some rno ∧
  scrDropped r.scratched = false ∧
  (strFalsy (entryOfRow r).horse_name && (entryOfRow r).runner_id.isNone) = false

/-- Compatibility of two scratching rows: rows surviving into the same
race must be equal or have distinct identity keys (distinct normalized
name keys and no shared present runner id). -/
def scrCompat (r1 r2 : ScrRow) : Prop :=
  (scrDropped r1.scratched = false ∧
   (strFalsy (entryOfRow r1).horse_name && (entryOfRow r1).runner_id.isNone) = false ∧
   scrDropped r2.scratched = false ∧
   (strFalsy (entryOfRow r2).horse_name && (entryOfRow r2).runner_id.isNone) = false ∧
   parseInt r1.meeting_id ≠ none ∧ parseInt r1.race_number ≠ none ∧
   parseInt r1.meeting_id = parseInt r2.meeting_id ∧
   parseInt r1.race_number = parseInt r2.race_number) →
  (r1 = r2 ∨ (entryNameKey (entryOfRow r1) ≠ entryNameKey (entryOfRow r2) ∧
    ((entryOfRow r1).runner_id = none ∨
      (entryOfRow r1).runner_id ≠ (entryOfRow r2).runner_id)))

/-- The part of a meeting the conditions pass reads and writes: its venue
and its conditions snapshot. -/
def condVenueView (ms : Meetings) (mid : Int) : Option (Option String × Option Cond) :=
  (ms.find mid).map (fun m => (m.venue, m.conditions))

/-- The effect of one condition row on one meeting's `(venue, conditions)`
view. -/
def condViewUpd (c : CondRow) (x : Option (Option String × Option Cond)) :
    Option (Option String × Option Cond) :=
  match x with
  | none => some (c.venue, some (mkCondObj c c.venue))
  | some (v, co) =>
    some (backfillStr v c.venue,
      match co with
      | none => some (mkCondObj c v)
      | some prev =>
        if replaceCond prev c.updated_at then some (mkCondObj c v) else some prev)

/-- Every meeting created so far carries the venue of its rows. -/
def goodVenue (cs : List CondRow) (ms : Meetings) : Prop :=
  ∀ (mid : Int) (v : Option String) (co : Option Cond),
    condVenueView ms mid = some (v, co) →
    ∀ c ∈ cs, parseInt c.meeting_id = some mid → v = c.venue

/-- Entries of every race list come from surviving rows of `rows`. -/
def entriesFromRows (rows : List ScrRow) (ms : Meetings) : Prop :=
  ∀ mid rno : Int, ∀ e ∈ entriesOf ms mid rno,
    ∃ r ∈ rows, scrRelevant r mid rno ∧ entryOfRow r = e

/-! ## Concrete rows and oracles used by witnesses and counterexamples -/

/-- Scratched row: meeting 1, race 3, "Fast Lad", runner id 55. -/
def rowFastLad55 : ScrRow :=
  { blankScrRow with
      meeting_id := some 1
      race_number := some 3
      horse_name := some "Fast Lad"
      runner_id := some 55
      scratched := PyScr.boolv true }

/-- The same identity, explicitly not scratched. -/
def rowFastLad55No : ScrRow := { rowFastLad55 with scratched := PyScr.boolv false }

/-- Same race and normalized name, different spelling and runner id. -/
def rowFastLad77 : ScrRow :=
  { rowFastLad55 with
      horse_name := some "FAST  LAD"
      runner_id := some 77 }

/-- Scratching row whose race number parses to 0. -/
def zeroRaceRow : ScrRow :=
  { blankScrRow with
      meeting_id := some 1
      race_number := some 0 }

/-- Condition row without timestamp: meeting 1, weather "Fine", rating "G4". -/
def condRowFine : CondRow :=
  { blankCondRow with
      meeting_id := some 1
      venue := some "Flemington"
      weather := some "Fine"
      track_condition := some "G4" }

/-- Condition row without timestamp: meeting 1, weather "Rain", rating "S7". -/
def condRowRain : CondRow :=
  { blankCondRow with
      meeting_id := some 1
      venue := some "Flemington"
      weather := some "Rain"
      track_condition := some "S7" }

def condRowFineT1 : CondRow := { condRowFine with updated_at := some 10 }

def condRowRainT2 : CondRow := { condRowRain with updated_at := some 20 }

/-- Meeting 2 with a venue that equals a later row's rating candidate
("Soft 7"), timestamp 10. -/
def condRowVenueTrap : CondRow :=
  { blankCondRow with
      meeting_id := some 2
      venue := some "Soft 7"
      updated_at := some 10 }

/-- Meeting 2, venue "X", rating candidate "Soft 7", timestamp 20. -/
def condRowSoftX : CondRow :=
  { blankCondRow with
      meeting_id := some 2
      venue := some "X"
      track_condition := some "Soft 7"
      updated_at := some 20 }

/-- A backfill oracle whose every lookup raises. -/
def allFailBack : CondBackOracle :=
  ⟨fun _ => .error "boom", fun _ => .error "boom", fun _ => .error "boom"⟩

/-- A run oracle on which every upstream call of both primary fetches and
of the backfill raises. -/
def allFailOracle : RunOracle :=
  ⟨[.error "e1", .error "e2", .error "e3", .error "e4", .error "e5"],
   [.error "f1", .error "f2", .error "f3", .error "f4", .error "f5"],
   fun _ => [], allFailBack⟩

/-- The twelve letters accepted by the single-letter rating code
(`[GFHDSLgfhdsl]`). -/
def ratingCodeLetters : List Char :=
  ['G', 'F', 'H', 'D', 'S', 'L', 'g', 'f', 'h', 'd', 's', 'l']

/-- Scratched row: meeting 1, race 3, "Other Horse", runner id 91. -/
def rowOtherScr : ScrRow :=
  { blankScrRow with
      meeting_id := some 1
      race_number := some 3
      horse_name := some "Other Horse"
      runner_id := some 91
      scratched := PyScr.boolv true }

instance (c1 c2 : CondRow) : Decidable (condCompat c1 c2) := by
  unfold condCompat
  exact inferInstance

instance (r1 r2 : ScrRow) : Decidable (scrCompat r1 r2) := by
  unfold scrCompat
  exact inferInstance

/-- A backfill-index record for another scratched runner in race 3. -/
def recOtherHorse : FieldsRec := ⟨some 2, some "Other Horse", some 3, some true, some 91⟩

/-- An oracle contributing one scratching row and one backfill record. -/
def oneRowOracle : RunOracle :=
  ⟨[Except.ok [rowFastLad55]], [Except.error "f"],
   fun mid => if mid = 1 then [(91, recOtherHorse)] else [], allFailBack⟩

/-! ## THEOREMS -/

/-! ## Dictionary lemmas -/

@[simp] theorem Dict.find_empty {α : Type} (k : Int) :
    (Dict.empty : Dict α).find k = none := rfl

@[simp] theorem Dict.find_set {α : Type} (d : Dict α) (k : Int) (v : α) (j : Int) :
    (d.set k v).find j = if j = k then some v else d.find j := rfl

/-! ## `lastIdxWhere` and `List.set` lemmas -/

theorem lastIdxWhere_eq_none {α : Type} (p : α → Bool) :
    ∀ l : List α, lastIdxWhere p l = none ↔ ∀ a ∈ l, p a = false := by
  intro l
  induction l with
  | nil => simp [lastIdxWhere]
  | cons a rest ih =>
    simp only [lastIdxWhere]
    cases h : lastIdxWhere p rest with
    | some j =>
      constructor
      · intro hc; cases hc
      · intro hall
        exfalso
        have hnone : lastIdxWhere p rest = none :=
          ih.mpr (fun x hx => hall x (List.mem_cons_of_mem _ hx))
        rw [h] at hnone; cases hnone
    | none =>
      have hrest := ih.mp h
      by_cases hpa : p a = true
      · simp only [hpa, if_true]
        constructor
        · intro hc; cases hc
        · intro hall; exact absurd (hall a (List.mem_cons_self a rest)) (by simp [hpa])
      · have hpa' : p a = false := by simpa using hpa
        simp only [hpa', if_false]
        constructor
        · intro _ x hx
          rcases List.mem_cons.mp hx with hx | hx
          · rw [hx]; exact hpa'
          · exact hrest x hx
        · intro _; rfl

theorem lastIdxWhere_lt_length {α : Type} (p : α → Bool) :
    ∀ (l : List α) (j : Nat), lastIdxWhere p l = some j → j < l.length := by
  intro l
  induction l with
  | nil => intro j h; simp [lastIdxWhere] at h
  | cons a rest ih =>
    intro j h
    simp only [lastIdxWhere] at h
    cases hr : lastIdxWhere p rest with
    | some i =>
      rw [hr] at h
      cases h
      have := ih i hr
      simp; omega
    | none =>
      rw [hr] at h
      by_cases hpa : p a = true
      · simp [hpa] at h; cases h; simp
      · simp at hpa; simp [hpa] at h

theorem mem_of_mem_set {α : Type} (e x : α) :
    ∀ (l : List α) (i : Nat), x ∈ l.set i e → x ∈ l ∨ x = e := by
  intro l
  induction l with
  | nil => intro i h; simp at h
  | cons a rest ih =>
    intro i h
    cases i with
    | zero =>
      simp [List.set] at h
      rcases h with h | h
      · right; exact h
      · left; exact List.mem_cons_of_mem _ h
    | succ i =>
      simp [List.set] at h
      rcases h with h | h
      · left; simp [h]
      · rcases ih i h with h' | h'
        · left; exact List.mem_cons_of_mem _ h'
        · right; exact h'

theorem self_mem_set {α : Type} (e : α) :
    ∀ (l : List α) (i : Nat), i < l.length → e ∈ l.set i e := by
  intro l
  induction l with
  | nil => intro i h; simp at h
  | cons a rest ih =>
    intro i h
    cases i with
    | zero => simp [List.set]
    | succ i =>
      simp [List.set]
      right
      exact ih i (by simpa using Nat.lt_of_succ_lt_succ h)

/-! ## Upsert lemmas -/

theorem upsert_length_of_name_match (l : List Entry) (e : Entry)
    (h : ∃ x ∈ l, entryNameKey x = entryNameKey e) :
    (upsertEntry l e).length = l.length := by
  cases hl : lastIdxWhere (fun x => entryNameKey x = entryNameKey e) l with
  | some i => simp [upsertEntry, hl]
  | none =>
    rw [lastIdxWhere_eq_none] at hl
    rcases h with ⟨x, hx, hk⟩
    have := hl x hx
    simp [hk] at this

theorem upsertById_mem_self (l : List Entry) (e : Entry) : e ∈ upsertById l e := by
  cases he : e.runner_id with
  | none => simp [upsertById, he]
  | some rid =>
    cases hl2 : lastIdxWhere (fun x => x.runner_id = some rid) l with
    | some i =>
      simp only [upsertById, he, hl2]
      exact self_mem_set e l i (lastIdxWhere_lt_length _ l i hl2)
    | none => simp [upsertById, he, hl2]

theorem upsert_mem_self (l : List Entry) (e : Entry) : e ∈ upsertEntry l e := by
  cases hl : lastIdxWhere (fun x => entryNameKey x = entryNameKey e) l with
  | some i =>
    simp only [upsertEntry, hl]
    exact self_mem_set e l i (lastIdxWhere_lt_length _ l i hl)
  | none =>
    simp only [upsertEntry, hl]
    exact upsertById_mem_self l e

theorem upsertById_mem_sub (l : List Entry) (e x : Entry)
    (h : x ∈ upsertById l e) : x ∈ l ∨ x = e := by
  cases he : e.runner_id with
  | none =>
    simp only [upsertById, he] at h
    rcases List.mem_append.mp h with h | h
    · exact Or.inl h
    · exact Or.inr (by simpa using h)
  | some rid =>
    cases hl2 : lastIdxWhere (fun y => y.runner_id = some rid) l with
    | some i =>
      simp only [upsertById, he, hl2] at h
      exact mem_of_mem_set e x l i h
    | none =>
      simp only [upsertById, he, hl2] at h
      rcases List.mem_append.mp h with h | h
      · exact Or.inl h
      · exact Or.inr (by simpa using h)

theorem upsert_mem_sub (l : List Entry) (e x : Entry)
    (h : x ∈ upsertEntry l e) : x ∈ l ∨ x = e := by
  cases hl : lastIdxWhere (fun y => entryNameKey y = entryNameKey e) l with
  | some i =>
    simp only [upsertEntry, hl] at h
    exact mem_of_mem_set e x l i h
  | none =>
    simp only [upsertEntry, hl] at h
    exact upsertById_mem_sub l e x h

theorem upsert_length_of_id_match (l : List Entry) (e : Entry) (rid : Int)
    (hn : ∀ x ∈ l, entryNameKey x ≠ entryNameKey e)
    (he : e.runner_id = some rid)
    (h : ∃ x ∈ l, x.runner_id = some rid) :
    (upsertEntry l e).length = l.length := by
  have hname : lastIdxWhere (fun x => entryNameKey x = entryNameKey e) l = none := by
    rw [lastIdxWhere_eq_none]
    intro a ha; simpa using hn a ha
  cases hl2 : lastIdxWhere (fun x => x.runner_id = some rid) l with
  | some i => simp [upsertEntry, hname, upsertById, he, hl2]
  | none =>
    rw [lastIdxWhere_eq_none] at hl2
    rcases h with ⟨x, hx, hk⟩
    have := hl2 x hx
    simp [hk] at this

theorem upsert_append (l : List Entry) (e : Entry)
    (hn : ∀ x ∈ l, entryNameKey x ≠ entryNameKey e)
    (hi : e.runner_id = none ∨ ∀ x ∈ l, x.runner_id ≠ e.runner_id) :
    upsertEntry l e = l ++ [e] := by
  have hname : lastIdxWhere (fun x => entryNameKey x = entryNameKey e) l = none := by
    rw [lastIdxWhere_eq_none]
    intro a ha; simpa using hn a ha
  simp only [upsertEntry, hname]
  cases he : e.runner_id with
  | none => simp [upsertById, he]
  | some rid =>
    have hid : lastIdxWhere (fun x => x.runner_id = some rid) l = none := by
      rw [lastIdxWhere_eq_none]
      intro a ha
      rcases hi with hi | hi
      · rw [he] at hi; cases hi
      · have := hi a ha
        rw [he] at this
        simpa using this
    simp [upsertById, he, hid]

/-! ## `scrStep` characterisation lemmas -/

theorem scrStep_invalid (ms : Meetings) (r : ScrRow)
    (h : parseInt r.meeting_id = none ∨ parseInt r.race_number = none) :
    scrStep ms r = ms := by
  rcases h with h | h
  · simp [scrStep, h]
  · cases hm : parseInt r.meeting_id with
    | none => simp [scrStep, hm]
    | some mid => simp [scrStep, hm, h]

theorem find_set_getD (d : Dict (List Entry)) (k : Int) (v : List Entry) (j : Int) :
    ((d.set k v).find j).getD [] = if j = k then v else (d.find j).getD [] := by
  by_cases h : j = k <;> simp [Dict.find_set, h]

theorem entriesOf_set (ms : Meetings) (mid : Int) (m : Meeting) (mid' rno' : Int) :
    entriesOf (ms.set mid m) mid' rno' =
      if mid' = mid then (m.races.find rno').getD [] else entriesOf ms mid' rno' := by
  by_cases h : mid' = mid <;> simp [entriesOf, Dict.find_set, h]

theorem entriesOf_none (ms : Meetings) (mid rno : Int) (h : ms.find mid = none) :
    entriesOf ms mid rno = [] := by
  simp [entriesOf, h]

theorem entriesOf_some (ms : Meetings) (mid rno : Int) (m : Meeting)
    (h : ms.find mid = some m) :
    entriesOf ms mid rno = (m.races.find rno).getD [] := by
  simp [entriesOf, h]

theorem scrStep_entries_self (ms : Meetings) (r : ScrRow) (mid rno : Int)
    (h1 : parseInt r.meeting_id = some mid) (h2 : parseInt r.race_number = some rno)
    (h3 : scrDropped r.scratched = false)
    (h4 : (strFalsy (entryOfRow r).horse_name && (entryOfRow r).runner_id.isNone) = false) :
    entriesOf (scrStep ms r) mid rno = upsertEntry (entriesOf ms mid rno) (entryOfRow r) := by
  simp only [scrStep, h1, h2, h3, h4]
  cases hfind : ms.find mid with
  | none =>
    simp only [Dict.setdefaultGet, hfind, Bool.false_eq_true, if_false]
    rw [entriesOf_set, if_pos rfl, entriesOf_none ms mid rno hfind]
    simp [freshMeetingOfScr, find_set_getD, Dict.empty]
  | some m =>
    cases hr : m.races.find rno with
    | none =>
      simp only [Dict.setdefaultGet, hfind, hr, Bool.false_eq_true, if_false]
      rw [entriesOf_set, if_pos rfl, entriesOf_some ms mid rno m hfind, hr]
      simp [find_set_getD]
    | some rl =>
      simp only [Dict.setdefaultGet, hfind, hr, Bool.false_eq_true, if_false]
      rw [entriesOf_set, if_pos rfl, entriesOf_some ms mid rno m hfind, hr]
      simp [find_set_getD]

theorem scrStep_entries_dropped (ms : Meetings) (r : ScrRow)
    (h3 : scrDropped r.scratched = true) :
    ∀ mid' rno', entriesOf (scrStep ms r) mid' rno' = entriesOf ms mid' rno' := by
  intro mid' rno'
  cases hm : parseInt r.meeting_id with
  | none => simp [scrStep, hm]
  | some mid =>
    cases hn : parseInt r.race_number with
    | none => simp [scrStep, hm, hn]
    | some rno =>
      simp only [scrStep, hm, hn, h3, if_true]
      cases hfind : ms.find mid with
      | none =>
        simp only [Dict.setdefaultGet, hfind, freshMeetingOfScr, Dict.find_empty]
        rw [entriesOf_set]
        by_cases hmid : mid' = mid
        · subst hmid
          rw [if_pos rfl, entriesOf_none ms mid' rno' hfind, find_set_getD]
          split <;> rfl
        · rw [if_neg hmid, entriesOf_set, if_neg hmid]
      | some m =>
        cases hr : m.races.find rno with
        | none =>
          simp only [Dict.setdefaultGet, hfind, hr]
          rw [entriesOf_set]
          by_cases hmid : mid' = mid
          · subst hmid
            rw [if_pos rfl, entriesOf_some ms mid' rno' m hfind]
            rw [find_set_getD]
            by_cases hrno : rno' = rno
            · subst hrno; rw [if_pos rfl, hr]; try rfl
            · rw [if_neg hrno]
          · rw [if_neg hmid]
        | some rl =>
          simp only [Dict.setdefaultGet, hfind, hr]
          rw [entriesOf_set]
          by_cases hmid : mid' = mid
          · subst hmid
            rw [if_pos rfl, entriesOf_some ms mid' rno' m hfind]
          · rw [if_neg hmid]

theorem scrStep_entries_noident (ms : Meetings) (r : ScrRow)
    (h3 : scrDropped r.scratched = false)
    (h4 : (strFalsy (entryOfRow r).horse_name && (entryOfRow r).runner_id.isNone) = true) :
    ∀ mid' rno', entriesOf (scrStep ms r) mid' rno' = entriesOf ms mid' rno' := by
  intro mid' rno'
  cases hm : parseInt r.meeting_id with
  | none => simp [scrStep, hm]
  | some mid =>
    cases hn : parseInt r.race_number with
    | none => simp [scrStep, hm, hn]
    | some rno =>
      simp only [scrStep, hm, hn, h3, h4, Bool.false_eq_true, if_false, if_true]
      cases hfind : ms.find mid with
      | none =>
        simp only [Dict.setdefaultGet, hfind, freshMeetingOfScr, Dict.find_empty]
        rw [entriesOf_set]
        by_cases hmid : mid' = mid
        · subst hmid
          rw [if_pos rfl, entriesOf_none ms mid' rno' hfind, find_set_getD]
          split <;> rfl
        · rw [if_neg hmid, entriesOf_set, if_neg hmid]
      | some m =>
        cases hr : m.races.find rno with
        | none =>
          simp only [Dict.setdefaultGet, hfind, hr]
          rw [entriesOf_set]
          by_cases hmid : mid' = mid
          · subst hmid
            rw [if_pos rfl, entriesOf_some ms mid' rno' m hfind]
            rw [find_set_getD]
            by_cases hrno : rno' = rno
            · subst hrno; rw [if_pos rfl, hr]; try rfl
            · rw [if_neg hrno]
          · rw [if_neg hmid]
        | some rl =>
          simp only [Dict.setdefaultGet, hfind, hr]
          rw [entriesOf_set]
          by_cases hmid : mid' = mid
          · subst hmid
            rw [if_pos rfl, entriesOf_some ms mid' rno' m hfind]
          · rw [if_neg hmid]

theorem scrStep_entries_other (ms : Meetings) (r : ScrRow) (mid rno : Int)
    (h1 : parseInt r.meeting_id = some mid) (h2 : parseInt r.race_number = some rno) :
    ∀ mid' rno', ¬(mid' = mid ∧ rno' = rno) →
      entriesOf (scrStep ms r) mid' rno' = entriesOf ms mid' rno' := by
  intro mid' rno' hne
  cases h3 : scrDropped r.scratched with
  | true => exact scrStep_entries_dropped ms r h3 mid' rno'
  | false =>
    cases h4 : (strFalsy (entryOfRow r).horse_name && (entryOfRow r).runner_id.isNone) with
    | true => exact scrStep_entries_noident ms r h3 h4 mid' rno'
    | false =>
      simp only [scrStep, h1, h2, h3, h4, Bool.false_eq_true, if_false]
      cases hfind : ms.find mid with
      | none =>
        simp only [Dict.setdefaultGet, hfind, freshMeetingOfScr, Dict.find_empty]
        rw [entriesOf_set]
        by_cases hmid : mid' = mid
        · subst hmid
          have hrno : rno' ≠ rno := fun h => hne ⟨rfl, h⟩
          rw [if_pos rfl, entriesOf_none ms mid' rno' hfind, find_set_getD,
            if_neg hrno, find_set_getD, if_neg hrno, Dict.find_empty]
          rfl
        · simp [entriesOf_set, hmid]
      | some m =>
        cases hr : m.races.find rno with
        | none =>
          simp only [Dict.setdefaultGet, hfind, hr]
          rw [entriesOf_set]
          by_cases hmid : mid' = mid
          · subst hmid
            have hrno : rno' ≠ rno := fun h => hne ⟨rfl, h⟩
            rw [if_pos rfl, entriesOf_some ms mid' rno' m hfind]
            rw [find_set_getD, if_neg hrno, find_set_getD, if_neg hrno]
          · simp [entriesOf_set, hmid]
        | some rl =>
          simp only [Dict.setdefaultGet, hfind, hr]
          rw [entriesOf_set]
          by_cases hmid : mid' = mid
          · subst hmid
            have hrno : rno' ≠ rno := fun h => hne ⟨rfl, h⟩
            rw [if_pos rfl, entriesOf_some ms mid' rno' m hfind]
            rw [find_set_getD, if_neg hrno]
          · simp [entriesOf_set, hmid]

theorem upsert_nil (e : Entry) : upsertEntry [] e = [e] := by
  cases he : e.runner_id with
  | none => simp [upsertEntry, lastIdxWhere, upsertById, he]
  | some rid => simp [upsertEntry, lastIdxWhere, upsertById, he]

theorem upsert_single_name_match (x e : Entry)
    (h : entryNameKey x = entryNameKey e) : upsertEntry [x] e = [e] := by
  simp [upsertEntry, lastIdxWhere, h]

/-! ## Claim C10 -/

/-- C10: integer fields parsing to 0 are treated as absent: a condition or
scratching row whose meeting id parses to 0 contributes nothing (the map is
unchanged), a scratching row whose race number parses to 0 is dropped, and
runner number / runner id 0 are stored as missing values. -/
theorem c10_zero_parses_absent :
    parseInt (some 0) = none ∧
    (∀ (ms : Meetings) (c : CondRow), c.meeting_id = some 0 → condStep ms c = ms) ∧
    (∀ (ms : Meetings) (s : ScrRow), s.meeting_id = some 0 → scrStep ms s = ms) ∧
    (∀ (ms : Meetings) (s : ScrRow), s.race_number = some 0 → scrStep ms s = ms) ∧
    (∀ s : ScrRow, s.runner_number = some 0 → (entryOfRow s).runner_number = none) ∧
    (∀ s : ScrRow, s.runner_id = some 0 → (entryOfRow s).runner_id = none) := by
  refine ⟨rfl, ?_, ?_, ?_, ?_, ?_⟩
  · intro ms c h; simp [condStep, h, parseInt]
  · intro ms s h; simp [scrStep, h, parseInt]
  · intro ms s h
    simp only [scrStep, h]
    split
    · rfl
    · simp [parseInt]
  · intro s h; simp [entryOfRow, h, parseInt]
  · intro s h; simp [entryOfRow, h, parseInt]

/-- Witness for C10 at concrete inputs. -/
theorem c10_zero_parses_absent_witness :
    condStep Dict.empty { blankCondRow with meeting_id := some 0 } = Dict.empty ∧
    scrStep Dict.empty { blankScrRow with meeting_id := some 0 } = Dict.empty ∧
    scrStep Dict.empty zeroRaceRow = Dict.empty ∧
    (entryOfRow { blankScrRow with runner_number := some 0 }).runner_number = none ∧
    (entryOfRow { blankScrRow with runner_id := some 0 }).runner_id = none :=
  ⟨c10_zero_parses_absent.2.1 _ _ rfl,
   c10_zero_parses_absent.2.2.1 _ _ rfl,
   c10_zero_parses_absent.2.2.2.1 _ _ rfl,
   c10_zero_parses_absent.2.2.2.2.1 _ rfl,
   c10_zero_parses_absent.2.2.2.2.2 _ rfl⟩

/-! ## Claim C5 -/

/-- C5: a scratching row carrying an explicit not-scratched marker is never
stored: a single such row leaves every race's scratchings list unchanged,
and in a batch where an earlier row for the same identity was scratched,
the final list carries only the earlier row's entry. -/
theorem c5_not_scratched_never_stored :
    (∀ (ms : Meetings) (r : ScrRow), scrDropped r.scratched = true →
      ∀ mid rno, entriesOf (scrStep ms r) mid rno = entriesOf ms mid rno) ∧
    (∀ (r1 r2 : ScrRow) (mid rno : Int),
      parseInt r1.meeting_id = some mid → parseInt r1.race_number = some rno →
      scrDropped r1.scratched = false →
      (strFalsy (entryOfRow r1).horse_name && (entryOfRow r1).runner_id.isNone) = false →
      scrDropped r2.scratched = true →
      entryNameKey (entryOfRow r1) = entryNameKey (entryOfRow r2) →
      entriesOf (scrFold Dict.empty [r1, r2]) mid rno = [entryOfRow r1]) := by
  constructor
  · intro ms r h mid rno
    exact scrStep_entries_dropped ms r h mid rno
  · intro r1 r2 mid rno h1 h2 h3 h4 hd _
    show entriesOf (scrStep (scrStep Dict.empty r1) r2) mid rno = [entryOfRow r1]
    rw [scrStep_entries_dropped _ r2 hd mid rno]
    rw [scrStep_entries_self Dict.empty r1 mid rno h1 h2 h3 h4]
    rw [entriesOf_none Dict.empty mid rno rfl]
    exact upsert_nil _

/-- Witness for C5: a concrete scratched row followed by an explicit
not-scratched row for the same identity. -/
theorem c5_not_scratched_never_stored_witness :
    entriesOf (scrFold Dict.empty [rowFastLad55, rowFastLad55No]) 1 3 =
      [entryOfRow rowFastLad55] :=
  c5_not_scratched_never_stored.2 rowFastLad55 rowFastLad55No 1 3 (by decide)
    (by decide) (by decide) (by decide) (by decide) (by decide)

/-! ## Claim C4 -/

/-- C4: the scratchings upsert is keyed by normalized name first (an
existing entry at the key is overwritten in place), falls back to runner
id, else appends; consequently two rows with the same race and normalized
name but different runner ids leave exactly the later row's entry. -/
theorem c4_upsert_keyed_dedup :
    (∀ (ms : Meetings) (r : ScrRow) (mid rno : Int),
      parseInt r.meeting_id = some mid → parseInt r.race_number = some rno →
      scrDropped r.scratched = false →
      (strFalsy (entryOfRow r).horse_name && (entryOfRow r).runner_id.isNone) = false →
      ((∃ x ∈ entriesOf ms mid rno, entryNameKey x = entryNameKey (entryOfRow r)) →
        (entriesOf (scrStep ms r) mid rno).length = (entriesOf ms mid rno).length ∧
        entryOfRow r ∈ entriesOf (scrStep ms r) mid rno ∧
        ∀ x ∈ entriesOf (scrStep ms r) mid rno,
          x ∈ entriesOf ms mid rno ∨ x = entryOfRow r) ∧
      (∀ rid, (∀ x ∈ entriesOf ms mid rno, entryNameKey x ≠ entryNameKey (entryOfRow r)) →
        (entryOfRow r).runner_id = some rid →
        (∃ x ∈ entriesOf ms mid rno, x.runner_id = some rid) →
        (entriesOf (scrStep ms r) mid rno).length = (entriesOf ms mid rno).length ∧
        entryOfRow r ∈ entriesOf (scrStep ms r) mid rno) ∧
      ((∀ x ∈ entriesOf ms mid rno, entryNameKey x ≠ entryNameKey (entryOfRow r)) →
        ((entryOfRow r).runner_id = none ∨
          ∀ x ∈ entriesOf ms mid rno, x.runner_id ≠ (entryOfRow r).runner_id) →
        entriesOf (scrStep ms r) mid rno = entriesOf ms mid rno ++ [entryOfRow r])) ∧
    (∀ (r1 r2 : ScrRow) (mid rno : Int),
      parseInt r1.meeting_id = some mid → parseInt r1.race_number = some rno →
      parseInt r2.meeting_id = some mid → parseInt r2.race_number = some rno →
      scrDropped r1.scratched = false →
      (strFalsy (entryOfRow r1).horse_name && (entryOfRow r1).runner_id.isNone) = false →
      scrDropped r2.scratched = false →
      (strFalsy (entryOfRow r2).horse_name && (entryOfRow r2).runner_id.isNone) = false →
      entryNameKey (entryOfRow r1) = entryNameKey (entryOfRow r2) →
      (entryOfRow r1).runner_id ≠ (entryOfRow r2).runner_id →
      entriesOf (scrFold Dict.empty [r1, r2]) mid rno = [entryOfRow r2]) := by
  constructor
  · intro ms r mid rno h1 h2 h3 h4
    have hstep := scrStep_entries_self ms r mid rno h1 h2 h3 h4
    refine ⟨?_, ?_, ?_⟩
    · intro hex
      rw [hstep]
      exact ⟨upsert_length_of_name_match _ _ hex, upsert_mem_self _ _,
        fun x hx => upsert_mem_sub _ _ x hx⟩
    · intro rid hn he hex
      rw [hstep]
      exact ⟨upsert_length_of_id_match _ _ rid hn he hex, upsert_mem_self _ _⟩
    · intro hn hi
      rw [hstep]
      exact upsert_append _ _ hn hi
  · intro r1 r2 mid rno h1 h2 h1' h2' h3 h4 h3' h4' hk _
    show entriesOf (scrStep (scrStep Dict.empty r1) r2) mid rno = [entryOfRow r2]
    rw [scrStep_entries_self _ r2 mid rno h1' h2' h3' h4']
    rw [scrStep_entries_self Dict.empty r1 mid rno h1 h2 h3 h4]
    rw [entriesOf_none Dict.empty mid rno rfl]
    rw [upsert_nil]
    exact upsert_single_name_match _ _ hk

/-- Witness for C4: same race, same normalized name, different runner ids;
the later row's entry is the only one left. -/
theorem c4_upsert_keyed_dedup_witness :
    entriesOf (scrFold Dict.empty [rowFastLad55, rowFastLad77]) 1 3 =
      [entryOfRow rowFastLad77] :=
  c4_upsert_keyed_dedup.2 rowFastLad55 rowFastLad77 1 3 (by decide) (by decide)
    (by decide) (by decide) (by decide) (by decide) (by decide) (by decide)
    (by decide) (by decide)

/-! ## `condStep` characterisation lemmas -/

theorem backfillStr_self (v : Option String) : backfillStr v v = v := by
  unfold backfillStr; split <;> rfl

theorem condOf_set (ms : Meetings) (mid : Int) (m : Meeting) (mid' : Int) :
    condOf (ms.set mid m) mid' = if mid' = mid then m.conditions else condOf ms mid' := by
  by_cases h : mid' = mid <;> simp [condOf, Dict.find_set, h]

theorem condStep_condOf (ms : Meetings) (c : CondRow) (mid : Int)
    (h1 : parseInt c.meeting_id = some mid) :
    condOf (condStep ms c) mid =
      match ms.find mid with
      | none => some (mkCondObj c c.venue)
      | some m =>
        match m.conditions with
        | none => some (mkCondObj c m.venue)
        | some prev =>
          if replaceCond prev c.updated_at then some (mkCondObj c m.venue) else some prev := by
  cases hfind : ms.find mid with
  | none =>
    simp only [condStep, h1, Dict.setdefaultGet, hfind, freshMeetingOfCond]
    rw [condOf_set, if_pos rfl]
    rfl
  | some m =>
    cases hco : m.conditions with
    | none =>
      simp only [condStep, h1, Dict.setdefaultGet, hfind, hco]
      rw [condOf_set, if_pos rfl]
      rfl
    | some prev =>
      simp only [condStep, h1, Dict.setdefaultGet, hfind, hco]
      cases hrep : replaceCond prev c.updated_at with
      | true =>
        simp only [hrep, if_true]
        rw [condOf_set, if_pos rfl]
        rfl
      | false =>
        simp only [hrep, Bool.false_eq_true, if_false]
        rw [condOf_set, if_pos rfl]
        simp [hco]

theorem condStep_empty_find (c : CondRow) (mid : Int)
    (h1 : parseInt c.meeting_id = some mid) :
    (condStep Dict.empty c).find mid =
      some ⟨mid, c.venue, c.state, c.meeting_date, some (mkCondObj c c.venue), Dict.empty⟩ := by
  simp only [condStep, h1, Dict.setdefaultGet, Dict.find_empty, freshMeetingOfCond]
  simp [Dict.find_set, backfillStr_self, mkCondObj]

/-! ## Claim C3 -/

/-- C3 (amended): the first condition row seeds a meeting's snapshot; when
the stored snapshot carries a timestamp, a later row replaces it exactly
when its own parsed timestamp is strictly newer (in particular a row
without a timestamp never replaces a timestamped snapshot); a stored
snapshot without a timestamp is always replaced by the next row; and for
two timestamped rows T1 < T2 carrying the same venue, either order yields
the T2 row's conditions object. -/
theorem c3_conditions_freshest :
    (∀ (ms : Meetings) (c : CondRow) (mid : Int),
      parseInt c.meeting_id = some mid → ms.find mid = none →
      condOf (condStep ms c) mid = some (mkCondObj c c.venue)) ∧
    (∀ (ms : Meetings) (c : CondRow) (mid : Int) (m : Meeting) (prev : Cond) (p u : Nat),
      parseInt c.meeting_id = some mid → ms.find mid = some m →
      m.conditions = some prev → prev.updated_at = some p →
      c.updated_at = some u → p < u →
      condOf (condStep ms c) mid = some (mkCondObj c m.venue)) ∧
    (∀ (ms : Meetings) (c : CondRow) (mid : Int) (m : Meeting) (prev : Cond) (p : Nat),
      parseInt c.meeting_id = some mid → ms.find mid = some m →
      m.conditions = some prev → prev.updated_at = some p →
      (c.updated_at = none ∨ ∃ u, c.updated_at = some u ∧ u ≤ p) →
      condOf (condStep ms c) mid = some prev) ∧
    (∀ (ms : Meetings) (c : CondRow) (mid : Int) (m : Meeting) (prev : Cond),
      parseInt c.meeting_id = some mid → ms.find mid = some m →
      m.conditions = some prev → prev.updated_at = none →
      condOf (condStep ms c) mid = some (mkCondObj c m.venue)) ∧
    (∀ (c1 c2 : CondRow) (mid : Int) (t1 t2 : Nat),
      parseInt c1.meeting_id = some mid → parseInt c2.meeting_id = some mid →
      c1.updated_at = some t1 → c2.updated_at = some t2 → t1 < t2 →
      c1.venue = c2.venue →
      condOf (condFold Dict.empty [c1, c2]) mid = some (mkCondObj c2 c2.venue) ∧
      condOf (condFold Dict.empty [c2, c1]) mid = some (mkCondObj c2 c2.venue)) := by
  refine ⟨?_, ?_, ?_, ?_, ?_⟩
  · intro ms c mid h1 hf
    rw [condStep_condOf ms c mid h1, hf]
  · intro ms c mid m prev p u h1 hf hco hp hu hlt
    rw [condStep_condOf ms c mid h1, hf]
    simp only [hco]
    have : replaceCond prev c.updated_at = true := by
      simp [replaceCond, hp, hu, hlt]
    rw [this]
    simp
  · intro ms c mid m prev p h1 hf hco hp hrest
    rw [condStep_condOf ms c mid h1, hf]
    simp only [hco]
    have : replaceCond prev c.updated_at = false := by
      rcases hrest with h | ⟨u, hu, hle⟩
      · simp [replaceCond, hp, h]
      · simp [replaceCond, hp, hu]; omega
    rw [this]
    simp
  · intro ms c mid m prev h1 hf hco hp
    rw [condStep_condOf ms c mid h1, hf]
    simp only [hco]
    have : replaceCond prev c.updated_at = true := by
      simp [replaceCond, hp]
    rw [this]
    simp
  · intro c1 c2 mid t1 t2 h1 h2 ht1 ht2 hlt hv
    constructor
    · show condOf (condStep (condStep Dict.empty c1) c2) mid = _
      rw [condStep_condOf _ c2 mid h2, condStep_empty_find c1 mid h1]
      simp only [hv]
      have hrep : replaceCond (mkCondObj c1 c2.venue) c2.updated_at = true := by
        simp [replaceCond, mkCondObj, ht1, ht2, hlt]
      simp only [hrep, if_true]
    · show condOf (condStep (condStep Dict.empty c2) c1) mid = _
      rw [condStep_condOf _ c1 mid h1, condStep_empty_find c2 mid h2]
      have hrep : replaceCond (mkCondObj c2 c2.venue) c1.updated_at = false := by
        simp [replaceCond, mkCondObj, ht1, ht2]; omega
      simp only [hrep, Bool.false_eq_true, if_false]

/-- Witness for C3 at concrete rows (T1 = 10 < T2 = 20, same venue, both
orders). -/
theorem c3_conditions_freshest_witness :
    condOf (condFold Dict.empty [condRowFineT1, condRowRainT2]) 1 =
      some (mkCondObj condRowRainT2 condRowRainT2.venue) ∧
    condOf (condFold Dict.empty [condRowRainT2, condRowFineT1]) 1 =
      some (mkCondObj condRowRainT2 condRowRainT2.venue) :=
  c3_conditions_freshest.2.2.2.2 condRowFineT1 condRowRainT2 1 10 20
    (by decide) (by decide) (by decide) (by decide) (by decide) (by decide)

/-- Counterexample to C3 as stated: (a) a later row with no timestamp
replaces a stored untimestamped snapshot, so replacement happens without a
strictly newer timestamp; (b) with T1 < T2 and the T1 row's venue equal to
the T2 row's rating candidate text, one presentation order loses the T2
rating (the candidate is skipped as the bare venue name), so "always
carries the T2 row's rating" fails. -/
theorem c3_conditions_freshest_counterexample :
    (condOf (condFold Dict.empty [condRowFine]) 1 =
        some ⟨some "Fine", some "Good4", none, none⟩ ∧
      condRowRain.updated_at = none ∧
      condOf (condFold Dict.empty [condRowFine, condRowRain]) 1 =
        some ⟨some "Rain", some "Soft7", none, none⟩) ∧
    (condOf (condFold Dict.empty [condRowVenueTrap, condRowSoftX]) 2 =
        some ⟨none, none, none, some 20⟩ ∧
      extractTrackCondition condRowSoftX condRowSoftX.venue = some "Soft7") := by
  decide

/-! ## Claim C7 -/

set_option maxHeartbeats 4000000 in
/-- C7: a candidate that is a single rating letter followed by a one or
two digit number parses to the letter's full word followed by those
digits; synthetic-surface aliases map to `Synthetic`; and the spec's
table holds: `"G4" → "Good4"`, `"s 7" → "Soft7"`,
`"Heavy (wet)10" → "Heavy10"`, `"Polytrack" → "Synthetic"`,
`"XYZ" →` nothing. -/
theorem c7_rating_letter_table :
    (∀ c ∈ ratingCodeLetters, ∀ n : Nat, n < 100 →
      displayTrackCondition (some (String.mk [c] ++ toString n)) =
        some ((ratingWordOfLetter c).getD "" ++ toString n)) ∧
    displayTrackCondition (some "G4") = some "Good4" ∧
    displayTrackCondition (some "s 7") = some "Soft7" ∧
    displayTrackCondition (some "Heavy (wet)10") = some "Heavy10" ∧
    displayTrackCondition (some "Polytrack") = some "Synthetic" ∧
    displayTrackCondition (some "XYZ") = none := by decide

/-- Witness for C7's quantified part at `S`, `7`. -/
theorem c7_rating_letter_table_witness :
    displayTrackCondition (some (String.mk ['S'] ++ toString 7)) =
      some ((ratingWordOfLetter 'S').getD "" ++ toString 7) :=
  c7_rating_letter_table.1 'S' (by decide) 7 (by decide)

/-! ## Claim C8 -/

/-- C8 (amended): the identity normalizer collapses every run of
non-alphanumeric characters — apostrophes included — to a single space, so
`"O'Brien's Dream"`, `"OBriens Dream"` and `"O’Briens  Dream"` normalize
to `"o brien s dream"`, `"obriens dream"` and `"o briens dream"`
respectively: three pairwise distinct keys, not one identical key. -/
theorem c8_norm_name_keys :
    normName (some "O'Brien's Dream") = some "o brien s dream" ∧
    normName (some "OBriens Dream") = some "obriens dream" ∧
    normName (some "O’Briens  Dream") = some "o briens dream" ∧
    normName (some "O'Brien's Dream") ≠ normName (some "OBriens Dream") ∧
    normName (some "O'Brien's Dream") ≠ normName (some "O’Briens  Dream") ∧
    normName (some "OBriens Dream") ≠ normName (some "O’Briens  Dream") := by
  decide

/-- Counterexample to C8 as stated: two of the three names that the claim
says normalize identically produce different keys. -/
theorem c8_norm_name_keys_counterexample :
    normName (some "O'Brien's Dream") ≠ normName (some "OBriens Dream") := by
  decide

/-! ## Claim C6 -/

/-- C6 (amended): when every credential placement fails, JSON mode raises
a fetch failure carrying the last observed error, but CSV mode returns an
ordinary empty result instead of raising. -/
theorem c6_credential_exhaustion :
    (∀ (α : Type) (url m0 m1 m2 m3 : String),
      pfGetJsonModel (α := α) url [.error m0, .error m1, .error m2, .error m3] =
        .error ("PF JSON auth/parse failed for " ++ url ++ ": " ++ m3)) ∧
    (∀ (α : Type) (m0 m1 m2 m3 : String),
      pfGetCsvModel (α := α) [.error m0, .error m1, .error m2, .error m3] = .ok []) := by
  exact ⟨fun α url m0 m1 m2 m3 => rfl, fun α m0 m1 m2 m3 => rfl⟩

/-- Counterexample to C6 as stated: in CSV mode, exhausting all four
credential placements yields an ordinary empty result, not a raised fetch
failure. -/
theorem c6_credential_exhaustion_counterexample :
    pfGetCsvModel (α := ScrRow) [.error "e1", .error "e2", .error "e3", .error "e4"] =
      .ok [] ∧
    ∀ msg, pfGetCsvModel (α := ScrRow)
      [.error "e1", .error "e2", .error "e3", .error "e4"] ≠ .error msg :=
  ⟨rfl, fun _ h => Except.noConfusion h⟩

/-! ## Claim C1 -/

/-- C1 (amended): the aggregation run never raises — it returns a result
for every oracle, even when both primary fetches fail in full — and each
individual upstream try's failure is absorbed as an empty contribution:
replacing a failed try by an empty successful one leaves the fetched row
set unchanged. -/
theorem c1_run_never_fails :
    (∀ (o : RunOracle) (target : String),
      ∃ out, fetchUpdatesForDate o target = Except.ok out) ∧
    (∀ (pre post : List (Except String (List ScrRow))) (msg : String),
      fetchScrForDate (pre ++ Except.error msg :: post) =
        fetchScrForDate (pre ++ Except.ok [] :: post)) ∧
    (∀ (pre post : List (Except String (List CondRow))) (msg : String),
      fetchCondForDate (pre ++ Except.error msg :: post) =
        fetchCondForDate (pre ++ Except.ok [] :: post)) := by
  refine ⟨fun o target => ⟨_, rfl⟩, ?_, ?_⟩
  · intro pre post msg
    simp [fetchScrForDate, List.foldl_append]
  · intro pre post msg
    simp [fetchCondForDate, List.foldl_append]

/-- Witness for C1 at a concrete oracle and date. -/
theorem c1_run_never_fails_witness :
    ∃ out, fetchUpdatesForDate allFailOracle "2024-01-01" = Except.ok out :=
  c1_run_never_fails.1 allFailOracle "2024-01-01"

/-- Counterexample to C1 as stated: on an oracle where every try of both
primary fetches raises, the run does not raise an aggregation failure —
it returns an ordinary (empty) result. -/
theorem c1_run_never_fails_counterexample :
    fetchUpdatesForDate allFailOracle "2024-01-01" =
      Except.ok ⟨"2024-01-01", []⟩ ∧
    ∀ msg, fetchUpdatesForDate allFailOracle "2024-01-01" ≠ Except.error msg := by
  constructor
  · rfl
  · intro msg h
    rw [show fetchUpdatesForDate allFailOracle "2024-01-01" =
      Except.ok ⟨"2024-01-01", []⟩ from rfl] at h
    cases h

/-! ## Sorting and fold preservation lemmas -/

theorem mem_insSorted {α : Type} (le : α → α → Bool) (a x : α) :
    ∀ l : List α, x ∈ insSorted le a l ↔ x = a ∨ x ∈ l := by
  intro l
  induction l with
  | nil => simp [insSorted]
  | cons b bs ih =>
    simp only [insSorted]
    by_cases h : le a b = true
    · simp [h]
    · simp only [if_neg h, List.mem_cons, ih]
      tauto

theorem mem_sortBy {α : Type} (le : α → α → Bool) (x : α) :
    ∀ l : List α, x ∈ sortBy le l ↔ x ∈ l := by
  intro l
  induction l with
  | nil => simp [sortBy]
  | cons a as ih =>
    simp only [sortBy, mem_insSorted, ih, List.mem_cons]

theorem foldl_preserve {σ α : Type} (P : σ → Prop) (f : σ → α → σ)
    (h : ∀ s a, P s → P (f s a)) :
    ∀ (l : List α) (s : σ), P s → P (List.foldl f s l) := by
  intro l
  induction l with
  | nil => intro s hs; exact hs
  | cons a as ih => intro s hs; exact ih (f s a) (h s a hs)

/-! ## `condStep` leaves scratchings untouched -/

theorem condStep_entries (ms : Meetings) (c : CondRow) :
    ∀ mid' rno', entriesOf (condStep ms c) mid' rno' = entriesOf ms mid' rno' := by
  intro mid' rno'
  cases hm : parseInt c.meeting_id with
  | none => simp [condStep, hm]
  | some mid =>
    cases hfind : ms.find mid with
    | none =>
      simp only [condStep, hm, Dict.setdefaultGet, hfind, freshMeetingOfCond]
      rw [entriesOf_set]
      by_cases hmid : mid' = mid
      · subst hmid
        rw [if_pos rfl, entriesOf_none ms mid' rno' hfind]
        rfl
      · rw [if_neg hmid, entriesOf_set, if_neg hmid]
    | some m =>
      cases hco : m.conditions with
      | none =>
        simp only [condStep, hm, Dict.setdefaultGet, hfind, hco]
        rw [entriesOf_set]
        by_cases hmid : mid' = mid
        · subst hmid
          rw [if_pos rfl, entriesOf_some ms mid' rno' m hfind]
        · rw [if_neg hmid]
      | some prev =>
        simp only [condStep, hm, Dict.setdefaultGet, hfind, hco]
        cases hrep : replaceCond prev c.updated_at with
        | true =>
          simp only [hrep, if_true]
          rw [entriesOf_set]
          by_cases hmid : mid' = mid
          · subst hmid
            rw [if_pos rfl, entriesOf_some ms mid' rno' m hfind]
          · rw [if_neg hmid]
        | false =>
          simp only [hrep, Bool.false_eq_true, if_false]
          rw [entriesOf_set]
          by_cases hmid : mid' = mid
          · subst hmid
            rw [if_pos rfl, entriesOf_some ms mid' rno' m hfind]
          · rw [if_neg hmid]

/-! ## Identity-invariant preservation -/

theorem kept_entry_has_identity (e : Entry)
    (h : (strFalsy e.horse_name && e.runner_id.isNone) = false) :
    entryHasIdentity e = true := by
  cases hsf : strFalsy e.horse_name with
  | false => simp [entryHasIdentity, hsf]
  | true =>
    cases hid : e.runner_id.isNone with
    | false =>
      simp [entryHasIdentity, hsf, Option.isSome, Option.isNone] at *
      cases hrid : e.runner_id with
      | none => simp [hrid] at hid
      | some v => simp
    | true => rw [hsf, hid] at h; cases h

theorem scrStep_preserves_identOK (ms : Meetings) (r : ScrRow)
    (h : stateEntriesOK ms) : stateEntriesOK (scrStep ms r) := by
  cases hm : parseInt r.meeting_id with
  | none => rw [scrStep_invalid ms r (Or.inl hm)]; exact h
  | some mid =>
    cases hn : parseInt r.race_number with
    | none => rw [scrStep_invalid ms r (Or.inr hn)]; exact h
    | some rno =>
      cases h3 : scrDropped r.scratched with
      | true =>
        intro mid' rno' e he
        rw [scrStep_entries_dropped ms r h3 mid' rno'] at he
        exact h mid' rno' e he
      | false =>
        cases h4 : (strFalsy (entryOfRow r).horse_name && (entryOfRow r).runner_id.isNone) with
        | true =>
          intro mid' rno' e he
          rw [scrStep_entries_noident ms r h3 h4 mid' rno'] at he
          exact h mid' rno' e he
        | false =>
          intro mid' rno' e he
          by_cases hslot : mid' = mid ∧ rno' = rno
          · rcases hslot with ⟨rfl, rfl⟩
            rw [scrStep_entries_self ms r mid' rno' hm hn h3 h4] at he
            rcases upsert_mem_sub _ _ e he with hmem | rfl
            · exact h mid' rno' e hmem
            · exact kept_entry_has_identity _ h4
          · rw [scrStep_entries_other ms r mid rno hm hn mid' rno' hslot] at he
            exact h mid' rno' e he

theorem condStep_preserves_identOK (ms : Meetings) (c : CondRow)
    (h : stateEntriesOK ms) : stateEntriesOK (condStep ms c) := by
  intro mid' rno' e he
  rw [condStep_entries ms c mid' rno'] at he
  exact h mid' rno' e he

theorem augmentMeeting_preserves (recs : List (Int × FieldsRec)) (m : Meeting)
    (h : meetingEntriesOK m) : meetingEntriesOK (augmentMeeting recs m) := by
  unfold augmentMeeting
  refine foldl_preserve meetingEntriesOK _ ?_ _ m h
  intro mm rno hmm
  intro rno' e he
  simp only [Dict.find_set] at he
  by_cases hrno : rno' = rno
  · subst hrno
    rw [if_pos rfl] at he
    simp only [Option.getD_some] at he
    rw [mem_sortBy] at he
    have base : ∀ e' ∈ ((mm.races.setdefaultGet rno' []).1 : List Entry),
        entryHasIdentity e' = true := by
      intro e' he'
      unfold Dict.setdefaultGet at he'
      cases hf : mm.races.find rno' with
      | none => rw [hf] at he'; cases he'
      | some rl =>
        rw [hf] at he'
        have := hmm rno'
        rw [hf] at this
        exact this e' he'
    revert he
    refine foldl_preserve (fun rl => e ∈ rl → entryHasIdentity e = true) _ ?_ recs _
      (fun hmem => base e hmem)
    · intro rl p hrl hmem
      by_cases hc1 : p.2.race_number = some rno'
      · by_cases hc2 : p.2.scratched = some true
        · by_cases hc3 : existsInScratchList rl p.1 p.2.horse_name = true
          · simp only [hc1, hc2, hc3, if_pos, if_true] at hmem
            exact hrl hmem
          · have hc3' : existsInScratchList rl p.1 p.2.horse_name = false := by
              simpa using hc3
            simp only [hc1, hc2, hc3', if_pos, Bool.false_eq_true, if_false] at hmem
            rcases List.mem_append.mp hmem with hmem | hmem
            · exact hrl hmem
            · simp only [List.mem_singleton] at hmem
              subst hmem
              simp [entryHasIdentity]
        · simp only [hc1, if_pos, if_neg hc2] at hmem
          exact hrl hmem
      · simp only [if_neg hc1] at hmem
        exact hrl hmem
  · rw [if_neg hrno] at he
    unfold Dict.setdefaultGet at he
    cases hf : mm.races.find rno with
    | none =>
      rw [hf] at he
      simp only [Dict.find_set] at he
      rw [if_neg hrno] at he
      have := hmm rno'
      exact this e he
    | some rl =>
      rw [hf] at he
      exact hmm rno' e he

theorem augmentScratchings_preserves (idx : Int → List (Int × FieldsRec))
    (ms : Meetings) (h : stateEntriesOK ms) :
    stateEntriesOK (augmentScratchings idx ms) := by
  unfold augmentScratchings
  refine foldl_preserve stateEntriesOK _ ?_ _ ms h
  intro acc mid hacc
  cases hf : acc.find mid with
  | none => exact hacc
  | some m =>
    show stateEntriesOK (Dict.set acc mid (augmentMeeting (idx mid) m))
    intro mid' rno' e he
    rw [entriesOf_set] at he
    by_cases hmid : mid' = mid
    · rw [if_pos hmid] at he
      have hm : meetingEntriesOK m := by
        intro rno e' he'
        have := hacc mid rno e'
        rw [entriesOf_some acc mid rno m hf] at this
        exact this he'
      have := augmentMeeting_preserves (idx mid) m hm rno'
      exact this e he
    · rw [if_neg hmid] at he
      exact hacc mid' rno' e he

/-! ## Backfill leaves scratchings untouched; materialise membership -/

theorem setTrackCond_races (m : Meeting) (res : String) :
    (setTrackCond m res).races = m.races := by
  unfold setTrackCond
  cases m.conditions <;> rfl

theorem setTrackCondOverride_races (m : Meeting) (res : String) :
    (setTrackCondOverride m res).races = m.races := by
  unfold setTrackCondOverride
  split
  · rfl
  · split <;> rfl

theorem backfillStage_entries (get : Int → Except String (Option String))
    (override : Bool) (mids : List Int) (ms : Meetings) :
    ∀ mid' rno', entriesOf (backfillStage get override mids ms) mid' rno' =
      entriesOf ms mid' rno' := by
  unfold backfillStage
  refine foldl_preserve
    (fun acc => ∀ mid' rno', entriesOf acc mid' rno' = entriesOf ms mid' rno')
    (backfillStepF get override) ?_ mids ms (fun _ _ => rfl)
  intro acc mid hacc
  unfold backfillStepF
  cases hres : condResUsable (get mid) with
  | none => exact hacc
  | some res =>
    cases hf : acc.find mid with
    | none => exact hacc
    | some m =>
      intro mid' rno'
      rw [entriesOf_set]
      by_cases hmid : mid' = mid
      · subst hmid
        rw [if_pos rfl]
        have hraces : (if override then setTrackCondOverride m res
            else setTrackCond m res).races = m.races := by
          split
          · exact setTrackCondOverride_races m res
          · exact setTrackCond_races m res
        rw [hraces, ← entriesOf_some acc mid' rno' m hf]
        exact hacc mid' rno'
      · rw [if_neg hmid]
        exact hacc mid' rno'

theorem backfillTrackConditions_entries (bo : CondBackOracle) (ms : Meetings) :
    ∀ mid' rno', entriesOf (backfillTrackConditions bo ms) mid' rno' =
      entriesOf ms mid' rno' := by
  intro mid' rno'
  unfold backfillTrackConditions
  rw [backfillStage_entries, backfillStage_entries, backfillStage_entries]

theorem materialize_entry_mem (target : String) (ms : Meetings) :
    ∀ mo ∈ (materialize target ms).meetings, ∀ ro ∈ mo.races, ∀ e ∈ ro.scratchings,
      ∃ mid rno, e ∈ entriesOf ms mid rno := by
  intro mo hmo ro hro e he
  rcases List.mem_filterMap.mp hmo with ⟨mid, _, hf⟩
  cases hfind : ms.find mid with
  | none => rw [hfind] at hf; cases hf
  | some m =>
    rw [hfind] at hf
    simp only [Option.map] at hf
    cases hf
    rcases List.mem_filterMap.mp hro with ⟨rno, _, hg⟩
    cases hrl : m.races.find rno with
    | none => rw [hrl] at hg; cases hg
    | some rl =>
      rw [hrl] at hg
      simp only [Option.map] at hg
      cases hg
      refine ⟨mid, rno, ?_⟩
      rw [entriesOf_some ms mid rno m hfind, hrl]
      exact he

/-! ## Claim C9 -/

/-- C9: every scratched-runner entry in the aggregated output — whether
stored by the scratchings fold or appended by backfill augmentation — has
at least one of horse name and runner id present. -/
theorem c9_entry_identity (o : RunOracle) (target : String) (out : Output)
    (heq : fetchUpdatesForDate o target = Except.ok out) :
    ∀ mo ∈ out.meetings, ∀ ro ∈ mo.races, ∀ e ∈ ro.scratchings,
      entryHasIdentity e = true := by
  intro mo hmo ro hro e he
  have hout : out = materialize target (aggregateState o target) := by
    have : fetchUpdatesForDate o target =
        Except.ok (materialize target (aggregateState o target)) := rfl
    rw [this] at heq
    cases heq
    rfl
  subst hout
  rcases materialize_entry_mem target (aggregateState o target) mo hmo ro hro e he with
    ⟨mid, rno, hmem⟩
  have hOK : stateEntriesOK (aggregateState o target) := by
    unfold aggregateState
    intro mid' rno' e' he'
    rw [backfillTrackConditions_entries] at he'
    revert he'
    refine augmentScratchings_preserves _ _ ?_ mid' rno' e'
    refine foldl_preserve stateEntriesOK scrStep
      (fun s a hs => scrStep_preserves_identOK s a hs) _ _ ?_
    refine foldl_preserve stateEntriesOK condStep
      (fun s a hs => condStep_preserves_identOK s a hs) _ _ ?_
    intro mid'' rno'' e'' he''
    rw [entriesOf_none Dict.empty mid'' rno'' rfl] at he''
    cases he''
  exact hOK mid rno e hmem

/-- Witness for C9: a concrete run with one primary scratching row and one
augmented backfill record; the augmented entry is checked. -/
theorem c9_entry_identity_witness :
    entryHasIdentity ⟨some 2, some "Other Horse", some 91, none⟩ = true :=
  c9_entry_identity oneRowOracle "2024-01-01" _ rfl
    ⟨1, none, none, none,
      [⟨3, [⟨some 2, some "Other Horse", some 91, none⟩,
            ⟨none, some "Fast Lad", some 55, none⟩]⟩]⟩
    (by decide)
    ⟨3, [⟨some 2, some "Other Horse", some 91, none⟩,
         ⟨none, some "Fast Lad", some 55, none⟩]⟩
    (by decide)
    ⟨some 2, some "Other Horse", some 91, none⟩ (by decide)

/-! ## Generic permutation-invariant fold lemmas -/

theorem foldl_E_cong {σ α : Type} (f : σ → α → σ) (E : σ → σ → Prop) (G : σ → Prop)
    (R : α → Prop)
    (Gpres : ∀ s a, G s → R a → G (f s a))
    (Econg : ∀ s t a, E s t → G s → G t → R a → E (f s a) (f t a)) :
    ∀ (l : List α) (s t : σ), E s t → G s → G t → (∀ a ∈ l, R a) →
      E (List.foldl f s l) (List.foldl f t l) := by
  intro l
  induction l with
  | nil => intro s t hE _ _ _; exact hE
  | cons a as ih =>
    intro s t hE hGs hGt hR
    have hRa := hR a (List.mem_cons_self a as)
    exact ih (f s a) (f t a) (Econg s t a hE hGs hGt hRa)
      (Gpres s a hGs hRa) (Gpres t a hGt hRa)
      (fun b hb => hR b (List.mem_cons_of_mem _ hb))

theorem foldl_perm_equiv {σ α : Type} (f : σ → α → σ) (E : σ → σ → Prop) (G : σ → Prop)
    (R : α → Prop) (Rel : α → α → Prop)
    (Erefl : ∀ s, E s s)
    (Etrans : ∀ a b c, E a b → E b c → E a c)
    (Gpres : ∀ s a, G s → R a → G (f s a))
    (Econg : ∀ s t a, E s t → G s → G t → R a → E (f s a) (f t a))
    (Ecomm : ∀ s a b, G s → R a → R b → Rel a b → Rel b a →
      E (f (f s a) b) (f (f s b) a)) :
    ∀ {l₁ l₂ : List α}, l₁.Perm l₂ → (∀ a ∈ l₁, R a) →
      (∀ a ∈ l₁, ∀ b ∈ l₁, Rel a b) → ∀ s, G s →
      E (List.foldl f s l₁) (List.foldl f s l₂) := by
  intro l₁ l₂ p
  induction p with
  | nil => intro _ _ s _; exact Erefl _
  | cons x p ih =>
    intro hR hRel s hG
    exact ih (fun a ha => hR a (List.mem_cons_of_mem _ ha))
      (fun a ha b hb =>
        hRel a (List.mem_cons_of_mem _ ha) b (List.mem_cons_of_mem _ hb))
      (f s x) (Gpres s x hG (hR x (List.mem_cons_self _ _)))
  | swap x y l =>
    intro hR hRel s hG
    have hRx : R x := hR x (List.mem_cons_of_mem _ (List.mem_cons_self _ _))
    have hRy : R y := hR y (List.mem_cons_self _ _)
    have hcomm := Ecomm s y x hG hRy hRx
      (hRel y (List.mem_cons_self _ _) x (List.mem_cons_of_mem _ (List.mem_cons_self _ _)))
      (hRel x (List.mem_cons_of_mem _ (List.mem_cons_self _ _)) y (List.mem_cons_self _ _))
    have hGyx : G (f (f s y) x) :=
      Gpres _ x (Gpres _ y hG hRy) hRx
    have hGxy : G (f (f s x) y) :=
      Gpres _ y (Gpres _ x hG hRx) hRy
    exact foldl_E_cong f E G R Gpres Econg l _ _ hcomm hGyx hGxy
      (fun a ha => hR a (List.mem_cons_of_mem _ (List.mem_cons_of_mem _ ha)))
  | trans p₁ p₂ ih₁ ih₂ =>
    intro hR hRel s hG
    refine Etrans _ _ _ (ih₁ hR hRel s hG) (ih₂ ?_ ?_ s hG)
    · intro a ha; exact hR a (p₁.mem_iff.mpr ha)
    · intro a ha b hb
      exact hRel a (p₁.mem_iff.mpr ha) b (p₁.mem_iff.mpr hb)

/-! ## Conditions pass: view characterisation and commutation -/

theorem condVenueView_set (ms : Meetings) (mid : Int) (m : Meeting) (mid' : Int) :
    condVenueView (ms.set mid m) mid' =
      if mid' = mid then some (m.venue, m.conditions) else condVenueView ms mid' := by
  by_cases h : mid' = mid <;> simp [condVenueView, Dict.find_set, h]

theorem condStep_view (ms : Meetings) (c : CondRow) (mid' : Int) :
    condVenueView (condStep ms c) mid' =
      match parseInt c.meeting_id with
      | none => condVenueView ms mid'
      | some mid =>
        if mid' = mid then condViewUpd c (condVenueView ms mid)
        else condVenueView ms mid' := by
  cases hm : parseInt c.meeting_id with
  | none => simp [condStep, hm]
  | some mid =>
    cases hfind : ms.find mid with
    | none =>
      simp only [condStep, hm, Dict.setdefaultGet, hfind, freshMeetingOfCond]
      rw [condVenueView_set]
      by_cases hmid : mid' = mid
      · subst hmid
        rw [if_pos rfl, if_pos rfl]
        have hview : condVenueView ms mid' = none := by
          simp [condVenueView, hfind]
        rw [hview]
        simp [condViewUpd, backfillStr_self, mkCondObj]
      · rw [if_neg hmid, if_neg hmid, condVenueView_set, if_neg hmid]
    | some m =>
      have hview : condVenueView ms mid = some (m.venue, m.conditions) := by
        simp [condVenueView, hfind]
      cases hco : m.conditions with
      | none =>
        simp only [condStep, hm, Dict.setdefaultGet, hfind, hco]
        rw [condVenueView_set]
        by_cases hmid : mid' = mid
        · subst hmid
          rw [if_pos rfl, if_pos rfl, hview]
          simp [condViewUpd, hco, mkCondObj]
        · rw [if_neg hmid, if_neg hmid]
      | some prev =>
        simp only [condStep, hm, Dict.setdefaultGet, hfind, hco]
        cases hrep : replaceCond prev c.updated_at with
        | true =>
          simp only [hrep, if_true]
          rw [condVenueView_set]
          by_cases hmid : mid' = mid
          · subst hmid
            rw [if_pos rfl, if_pos rfl, hview]
            simp [condViewUpd, hco, hrep, mkCondObj]
          · rw [if_neg hmid, if_neg hmid]
        | false =>
          simp only [hrep, Bool.false_eq_true, if_false]
          rw [condVenueView_set]
          by_cases hmid : mid' = mid
          · subst hmid
            rw [if_pos rfl, if_pos rfl, hview]
            simp [condViewUpd, hco, hrep]
          · rw [if_neg hmid, if_neg hmid]

theorem condStep_invalid (ms : Meetings) (c : CondRow)
    (h : parseInt c.meeting_id = none) : condStep ms c = ms := by
  simp [condStep, h]

theorem mkCondObj_updated (c : CondRow) (v : Option String) :
    (mkCondObj c v).updated_at = c.updated_at := rfl

theorem replaceCond_of_ts (prev : Cond) (p u : Nat) (hp : prev.updated_at = some p) :
    replaceCond prev (some u) = decide (p < u) := by
  simp [replaceCond, hp]

theorem replaceCond_of_none (prev : Cond) (hp : prev.updated_at = none)
    (u : Option Nat) : replaceCond prev u = true := by
  simp [replaceCond, hp]

theorem condViewUpd_comm (c1 c2 : CondRow) (x : Option (Option String × Option Cond))
    (hv : c1.venue = c2.venue) (t1 t2 : Nat)
    (h1 : c1.updated_at = some t1) (h2 : c2.updated_at = some t2) (hne : t1 ≠ t2)
    (hx : ∀ v co, x = some (v, co) → v = c1.venue) :
    condViewUpd c2 (condViewUpd c1 x) = condViewUpd c1 (condViewUpd c2 x) := by
  cases x with
  | none =>
    simp only [condViewUpd]
    rw [hv]
    rcases Nat.lt_or_ge t1 t2 with hlt | hge
    · have h21 : ¬t2 < t1 := by omega
      simp [replaceCond, mkCondObj, h1, h2, hlt, h21, backfillStr_self]
    · have hlt : t2 < t1 := by omega
      have h12 : ¬t1 < t2 := by omega
      simp [replaceCond, mkCondObj, h1, h2, hlt, h12, backfillStr_self]
  | some p =>
    rcases p with ⟨v, co⟩
    have hvv : v = c1.venue := hx v co rfl
    subst hvv
    cases co with
    | none =>
      simp only [condViewUpd]
      rw [hv]
      rcases Nat.lt_or_ge t1 t2 with hlt | hge
      · have h21 : ¬t2 < t1 := by omega
        simp [replaceCond, mkCondObj, h1, h2, hlt, h21, backfillStr_self]
      · have hlt : t2 < t1 := by omega
        have h12 : ¬t1 < t2 := by omega
        simp [replaceCond, mkCondObj, h1, h2, hlt, h12, backfillStr_self]
    | some prev =>
      cases hp : prev.updated_at with
      | none =>
        simp only [condViewUpd]
        rw [hv]
        rcases Nat.lt_or_ge t1 t2 with hlt | hge
        · have h21 : ¬t2 < t1 := by omega
          simp [replaceCond, mkCondObj, h1, h2, hp, hlt, h21, backfillStr_self]
        · have hlt : t2 < t1 := by omega
          have h12 : ¬t1 < t2 := by omega
          simp [replaceCond, mkCondObj, h1, h2, hp, hlt, h12, backfillStr_self]
      | some tp =>
        simp only [condViewUpd]
        rw [hv]
        by_cases ha : tp < t1
        · by_cases hb : tp < t2
          · rcases Nat.lt_or_ge t1 t2 with hlt | hge
            · have h21 : ¬t2 < t1 := by omega
              simp [replaceCond, mkCondObj, h1, h2, hp, ha, hb, hlt, h21,
                backfillStr_self]
            · have hlt : t2 < t1 := by omega
              have h12 : ¬t1 < t2 := by omega
              simp [replaceCond, mkCondObj, h1, h2, hp, ha, hb, hlt, h12,
                backfillStr_self]
          · have h12 : ¬t1 < t2 := by omega
            simp [replaceCond, mkCondObj, h1, h2, hp, ha, hb, h12, backfillStr_self]
        · by_cases hb : tp < t2
          · have h21 : ¬t2 < t1 := by omega
            simp [replaceCond, mkCondObj, h1, h2, hp, ha, hb, h21, backfillStr_self]
          · simp [replaceCond, mkCondObj, h1, h2, hp, ha, hb, backfillStr_self]

theorem condStep_view_cong (s t : Meetings) (c : CondRow)
    (hE : ∀ mid, condVenueView s mid = condVenueView t mid) :
    ∀ mid, condVenueView (condStep s c) mid = condVenueView (condStep t c) mid := by
  intro mid
  rw [condStep_view, condStep_view]
  cases hm : parseInt c.meeting_id with
  | none => exact hE mid
  | some midc =>
    dsimp only
    by_cases hq : mid = midc
    · rw [if_pos hq, if_pos hq, hE midc]
    · rw [if_neg hq, if_neg hq]
      exact hE mid

theorem condStep_preserves_goodVenue (cs : List CondRow)
    (hpair : ∀ a ∈ cs, ∀ b ∈ cs, condCompat a b)
    (ms : Meetings) (c : CondRow) (hc : c ∈ cs) (hG : goodVenue cs ms) :
    goodVenue cs (condStep ms c) := by
  intro mid v co hview c' hc' hmid'
  rw [condStep_view] at hview
  cases hm : parseInt c.meeting_id with
  | none => rw [hm] at hview; exact hG mid v co hview c' hc' hmid'
  | some midc =>
    rw [hm] at hview
    dsimp only at hview
    by_cases hq : mid = midc
    · subst hq
      rw [if_pos rfl] at hview
      have hvenue : c.venue = c'.venue :=
        (hpair c hc c' hc' (by rw [hm]; simp) (by rw [hm, hmid'])).1
      cases hx : condVenueView ms mid with
      | none =>
        rw [hx] at hview
        simp only [condViewUpd] at hview
        cases hview
        exact hvenue
      | some p =>
        rcases p with ⟨w, co0⟩
        rw [hx] at hview
        simp only [condViewUpd] at hview
        have hw : w = c.venue := hG mid w co0 hx c hc hm
        cases hview
        rw [hw, backfillStr_self]
        exact hvenue
    · rw [if_neg hq] at hview
      exact hG mid v co hview c' hc' hmid'

theorem condStep_comm_view (cs : List CondRow)
    (hpair : ∀ a ∈ cs, ∀ b ∈ cs, condCompat a b)
    (ms : Meetings) (c1 c2 : CondRow) (h1 : c1 ∈ cs) (h2 : c2 ∈ cs)
    (hG : goodVenue cs ms) :
    ∀ mid', condVenueView (condStep (condStep ms c1) c2) mid' =
      condVenueView (condStep (condStep ms c2) c1) mid' := by
  by_cases heq : c1 = c2
  · subst heq; intro mid'; rfl
  intro mid'
  cases hm1 : parseInt c1.meeting_id with
  | none => rw [condStep_invalid ms c1 hm1, condStep_invalid (condStep ms c2) c1 hm1]
  | some m1 =>
    cases hm2 : parseInt c2.meeting_id with
    | none => rw [condStep_invalid ms c2 hm2, condStep_invalid (condStep ms c1) c2 hm2]
    | some m2 =>
      rw [condStep_view (condStep ms c1) c2 mid',
        condStep_view (condStep ms c2) c1 mid', hm1, hm2]
      dsimp only
      rw [condStep_view ms c1 m2, condStep_view ms c1 mid',
        condStep_view ms c2 m1, condStep_view ms c2 mid', hm1, hm2]
      dsimp only
      by_cases hmm : m1 = m2
      · subst hmm
        by_cases hq : mid' = m1
        · subst hq
          simp only [eq_self_iff_true, if_true]
          rcases hpair c1 h1 c2 h2 (by rw [hm1]; simp) (by rw [hm1, hm2]) with ⟨hv, hcase⟩
          rcases hcase with hcc | ⟨h1n, h2n, hne12⟩
          · exact absurd hcc heq
          · obtain ⟨t1, ht1⟩ : ∃ t, c1.updated_at = some t := by
              cases hu : c1.updated_at with
              | none => exact absurd hu h1n
              | some t => exact ⟨t, rfl⟩
            obtain ⟨t2, ht2⟩ : ∃ t, c2.updated_at = some t := by
              cases hu : c2.updated_at with
              | none => exact absurd hu h2n
              | some t => exact ⟨t, rfl⟩
            have hnet : t1 ≠ t2 := fun h => hne12 (by rw [ht1, ht2, h])
            refine condViewUpd_comm c1 c2 (condVenueView ms mid') hv t1 t2
              ht1 ht2 hnet ?_
            intro v co hx
            exact hG mid' v co hx c1 h1 hm1
        · simp only [if_neg hq]
      · by_cases hq2 : mid' = m2
        · have hq1 : mid' ≠ m1 := fun h => hmm (by rw [← h, hq2])
          have hmm' : ¬m2 = m1 := fun hh => hmm hh.symm
          simp only [if_pos hq2, if_neg hq1, if_neg hmm']
        · by_cases hq1 : mid' = m1
          · simp only [if_neg hq2, if_pos hq1, if_neg hmm]
          · simp only [if_neg hq2, if_neg hq1]

theorem condFold_perm_view (cs cs' : List CondRow) (p : cs.Perm cs')
    (hpair : ∀ a ∈ cs, ∀ b ∈ cs, condCompat a b) :
    ∀ mid, condVenueView (condFold Dict.empty cs) mid =
      condVenueView (condFold Dict.empty cs') mid := by
  refine foldl_perm_equiv condStep
    (fun s t => ∀ mid, condVenueView s mid = condVenueView t mid)
    (goodVenue cs) (fun a => a ∈ cs) condCompat
    (fun s mid => rfl)
    (fun a b c hab hbc mid => (hab mid).trans (hbc mid))
    (fun s a hG ha => condStep_preserves_goodVenue cs hpair s a ha hG)
    (fun s t a hE _ _ _ => condStep_view_cong s t a hE)
    (fun s a b hG ha hb hab hba => condStep_comm_view cs hpair s a b ha hb hG)
    p (fun a ha => ha) hpair Dict.empty ?_
  intro mid v co hview
  simp [condVenueView] at hview

/-! ## Scratchings pass: uniqueness-based upsert characterisation -/

theorem lastIdxWhere_get {α : Type} (p : α → Bool) :
    ∀ (l : List α) (i : Nat), lastIdxWhere p l = some i →
      ∃ h : i < l.length, p (l.get ⟨i, h⟩) = true := by
  intro l
  induction l with
  | nil => intro i h; simp [lastIdxWhere] at h
  | cons a rest ih =>
    intro i h
    simp only [lastIdxWhere] at h
    cases hr : lastIdxWhere p rest with
    | some j =>
      rw [hr] at h
      cases h
      rcases ih j hr with ⟨hlt, hp⟩
      exact ⟨by simpa using Nat.succ_lt_succ hlt, hp⟩
    | none =>
      rw [hr] at h
      by_cases hpa : p a = true
      · simp only [hpa, if_true] at h
        cases h
        exact ⟨by simp, hpa⟩
      · simp only [hpa, Bool.false_eq_true, if_false] at h
        cases h

theorem set_get_self {α : Type} :
    ∀ (l : List α) (i : Nat) (h : i < l.length), l.set i (l.get ⟨i, h⟩) = l := by
  intro l
  induction l with
  | nil => intro i h; simp at h
  | cons a rest ih =>
    intro i h
    cases i with
    | zero => simp [List.set]
    | succ i =>
      simp only [List.set, List.get]
      rw [ih i (by simpa using Nat.lt_of_succ_lt_succ h)]

/-- When every matching element of the list is `e` itself, the Python
upsert degenerates to insert-if-new. -/
theorem upsert_insert (l : List Entry) (e : Entry)
    (hname : ∀ x ∈ l, entryNameKey x = entryNameKey e → x = e)
    (hid : ∀ x ∈ l, ∀ v : Int, x.runner_id = some v → e.runner_id = some v → x = e) :
    upsertEntry l e = if e ∈ l then l else l ++ [e] := by
  cases hl : lastIdxWhere (fun x => entryNameKey x = entryNameKey e) l with
  | some i =>
    rcases lastIdxWhere_get _ l i hl with ⟨hlt, hp⟩
    have hx : l.get ⟨i, hlt⟩ = e := hname _ (l.get_mem _ _) (by simpa using hp)
    have hmem : e ∈ l := hx ▸ l.get_mem _ _
    simp only [upsertEntry, hl, if_pos hmem]
    rw [← hx, set_get_self]
  | none =>
    have hnomatch : ∀ x ∈ l, entryNameKey x ≠ entryNameKey e := by
      intro x hx
      have := (lastIdxWhere_eq_none _ l).mp hl x hx
      simpa using this
    have hnotmem : e ∉ l := fun hmem => hnomatch e hmem rfl
    simp only [upsertEntry, hl, if_neg hnotmem]
    cases he : e.runner_id with
    | none => simp [upsertById, he]
    | some rid =>
      cases hl2 : lastIdxWhere (fun x => x.runner_id = some rid) l with
      | some i =>
        exfalso
        rcases lastIdxWhere_get _ l i hl2 with ⟨hlt, hp⟩
        have hx : l.get ⟨i, hlt⟩ = e :=
          hid _ (l.get_mem _ _) rid (by simpa using hp) he
        exact hnotmem (hx ▸ l.get_mem _ _)
      | none => simp [upsertById, he, hl2]

theorem entries_unique_match (ss : List ScrRow)
    (hpair : ∀ a ∈ ss, ∀ b ∈ ss, scrCompat a b)
    (ms : Meetings) (hG : entriesFromRows ss ms)
    (mid rno : Int) (r : ScrRow) (hr : r ∈ ss) (hrel : scrRelevant r mid rno) :
    (∀ x ∈ entriesOf ms mid rno,
      entryNameKey x = entryNameKey (entryOfRow r) → x = entryOfRow r) ∧
    (∀ x ∈ entriesOf ms mid rno, ∀ v : Int,
      x.runner_id = some v → (entryOfRow r).runner_id = some v → x = entryOfRow r) := by
  have hante : ∀ rx : ScrRow, scrRelevant rx mid rno →
      (scrDropped rx.scratched = false ∧
       (strFalsy (entryOfRow rx).horse_name && (entryOfRow rx).runner_id.isNone) = false ∧
       scrDropped r.scratched = false ∧
       (strFalsy (entryOfRow r).horse_name && (entryOfRow r).runner_id.isNone) = false ∧
       parseInt rx.meeting_id ≠ none ∧ parseInt rx.race_number ≠ none ∧
       parseInt rx.meeting_id = parseInt r.meeting_id ∧
       parseInt rx.race_number = parseInt r.race_number) := by
    intro rx hrelx
    exact ⟨hrelx.2.2.1, hrelx.2.2.2, hrel.2.2.1, hrel.2.2.2,
      (by rw [hrelx.1]; simp), (by rw [hrelx.2.1]; simp),
      hrelx.1.trans hrel.1.symm, hrelx.2.1.trans hrel.2.1.symm⟩
  constructor
  · intro x hx hk
    rcases hG mid rno x hx with ⟨rx, hrx, hrelx, hex⟩
    rcases hpair rx hrx r hr (hante rx hrelx) with hre | ⟨hne, _⟩
    · rw [← hex, hre]
    · exact absurd (by rw [← hex] at hk; exact hk) hne
  · intro x hx v hxv hev
    rcases hG mid rno x hx with ⟨rx, hrx, hrelx, hex⟩
    rcases hpair rx hrx r hr (hante rx hrelx) with hre | ⟨_, hno⟩
    · rw [← hex, hre]
    · rw [← hex] at hxv
      rcases hno with hnone | hne
      · rw [hnone] at hxv; cases hxv
      · exact absurd (by rw [hxv, hev]) hne

theorem scrStep_entries_insert (ss : List ScrRow)
    (hpair : ∀ a ∈ ss, ∀ b ∈ ss, scrCompat a b)
    (ms : Meetings) (hG : entriesFromRows ss ms)
    (r : ScrRow) (hr : r ∈ ss) (mid rno : Int) (hrel : scrRelevant r mid rno) :
    entriesOf (scrStep ms r) mid rno =
      if entryOfRow r ∈ entriesOf ms mid rno then entriesOf ms mid rno
      else entriesOf ms mid rno ++ [entryOfRow r] := by
  rcases hrel with ⟨hm, hn, hdrop, hident⟩
  rw [scrStep_entries_self ms r mid rno hm hn hdrop hident]
  rcases entries_unique_match ss hpair ms hG mid rno r hr ⟨hm, hn, hdrop, hident⟩ with
    ⟨hname, hid⟩
  exact upsert_insert _ _ hname hid

theorem scrStep_preserves_fromRows (ss : List ScrRow) (ms : Meetings) (r : ScrRow)
    (hr : r ∈ ss) (hG : entriesFromRows ss ms) :
    entriesFromRows ss (scrStep ms r) := by
  cases hm : parseInt r.meeting_id with
  | none => rw [scrStep_invalid ms r (Or.inl hm)]; exact hG
  | some mid =>
    cases hn : parseInt r.race_number with
    | none => rw [scrStep_invalid ms r (Or.inr hn)]; exact hG
    | some rno =>
      cases h3 : scrDropped r.scratched with
      | true =>
        intro mid' rno' e he
        rw [scrStep_entries_dropped ms r h3 mid' rno'] at he
        exact hG mid' rno' e he
      | false =>
        cases h4 : (strFalsy (entryOfRow r).horse_name &&
            (entryOfRow r).runner_id.isNone) with
        | true =>
          intro mid' rno' e he
          rw [scrStep_entries_noident ms r h3 h4 mid' rno'] at he
          exact hG mid' rno' e he
        | false =>
          intro mid' rno' e he
          by_cases hslot : mid' = mid ∧ rno' = rno
          · rcases hslot with ⟨rfl, rfl⟩
            rw [scrStep_entries_self ms r mid' rno' hm hn h3 h4] at he
            rcases upsert_mem_sub _ _ e he with hmem | rfl
            · exact hG mid' rno' e hmem
            · exact ⟨r, hr, ⟨hm, hn, h3, h4⟩, rfl⟩
          · rw [scrStep_entries_other ms r mid rno hm hn mid' rno' hslot] at he
            exact hG mid' rno' e he

/-- Insert-if-new. -/
def insNew (l : List Entry) (e : Entry) : List Entry :=
  if e ∈ l then l else l ++ [e]

theorem insNew_perm_cong (l l' : List Entry) (e : Entry) (h : l.Perm l') :
    (insNew l e).Perm (insNew l' e) := by
  unfold insNew
  by_cases hm : e ∈ l
  · rw [if_pos hm, if_pos (h.mem_iff.mp hm)]
    exact h
  · rw [if_neg hm, if_neg (fun hm' => hm (h.mem_iff.mpr hm'))]
    exact h.append_right [e]

theorem insNew_comm_perm (l : List Entry) (e1 e2 : Entry) (hne : e1 ≠ e2) :
    (insNew (insNew l e1) e2).Perm (insNew (insNew l e2) e1) := by
  have hne' : e2 ≠ e1 := Ne.symm hne
  unfold insNew
  by_cases h1 : e1 ∈ l <;> by_cases h2 : e2 ∈ l
  · simp [h1, h2]
  · simp [h1, h2]
  · simp [h1, h2]
  · have g1 : e2 ∉ l ++ [e1] := by simp [h2, hne']
    have g2 : e1 ∉ l ++ [e2] := by simp [h1, hne]
    rw [if_neg h1, if_neg h2, if_neg g1, if_neg g2, List.append_assoc,
      List.append_assoc]
    exact List.Perm.append_left l (List.Perm.swap e2 e1 [])

theorem scrRelevant_dec (r : ScrRow) :
    (∃ mid rno, scrRelevant r mid rno) ∨
      (parseInt r.meeting_id = none ∨ parseInt r.race_number = none ∨
        scrDropped r.scratched = true ∨
        (strFalsy (entryOfRow r).horse_name && (entryOfRow r).runner_id.isNone) = true) := by
  cases hm : parseInt r.meeting_id with
  | none => exact Or.inr (Or.inl rfl)
  | some mid =>
    cases hn : parseInt r.race_number with
    | none => exact Or.inr (Or.inr (Or.inl rfl))
    | some rno =>
      cases h3 : scrDropped r.scratched with
      | true => exact Or.inr (Or.inr (Or.inr (Or.inl rfl)))
      | false =>
        cases h4 : (strFalsy (entryOfRow r).horse_name &&
            (entryOfRow r).runner_id.isNone) with
        | true => exact Or.inr (Or.inr (Or.inr (Or.inr rfl)))
        | false => exact Or.inl ⟨mid, rno, hm, hn, h3, h4⟩

/-- An irrelevant row leaves every race's entry list unchanged. -/
theorem scrStep_entries_irrelevant (ms : Meetings) (r : ScrRow)
    (h : parseInt r.meeting_id = none ∨ parseInt r.race_number = none ∨
      scrDropped r.scratched = true ∨
      (strFalsy (entryOfRow r).horse_name && (entryOfRow r).runner_id.isNone) = true) :
    ∀ mid rno, entriesOf (scrStep ms r) mid rno = entriesOf ms mid rno := by
  intro mid rno
  rcases h with h | h | h | h
  · rw [scrStep_invalid ms r (Or.inl h)]
  · rw [scrStep_invalid ms r (Or.inr h)]
  · exact scrStep_entries_dropped ms r h mid rno
  · cases h3 : scrDropped r.scratched with
    | true => exact scrStep_entries_dropped ms r h3 mid rno
    | false => exact scrStep_entries_noident ms r h3 h mid rno

/-- A relevant row's effect at any slot, in terms of the entry lists. -/
theorem scrStep_entries_shape (ms : Meetings) (r : ScrRow) (mid rno : Int)
    (hrel : scrRelevant r mid rno) :
    ∀ mid' rno', entriesOf (scrStep ms r) mid' rno' =
      if mid' = mid ∧ rno' = rno then upsertEntry (entriesOf ms mid rno) (entryOfRow r)
      else entriesOf ms mid' rno' := by
  intro mid' rno'
  rcases hrel with ⟨hm, hn, h3, h4⟩
  by_cases hslot : mid' = mid ∧ rno' = rno
  · rcases hslot with ⟨rfl, rfl⟩
    rw [if_pos ⟨rfl, rfl⟩]
    exact scrStep_entries_self ms r mid' rno' hm hn h3 h4
  · rw [if_neg hslot]
    exact scrStep_entries_other ms r mid rno hm hn mid' rno' hslot

theorem scrStep_cong_perm (ss : List ScrRow)
    (hpair : ∀ a ∈ ss, ∀ b ∈ ss, scrCompat a b)
    (s t : Meetings) (r : ScrRow) (hr : r ∈ ss)
    (hGs : entriesFromRows ss s) (hGt : entriesFromRows ss t)
    (hE : ∀ mid rno, (entriesOf s mid rno).Perm (entriesOf t mid rno)) :
    ∀ mid rno, (entriesOf (scrStep s r) mid rno).Perm (entriesOf (scrStep t r) mid rno) := by
  intro mid rno
  rcases scrRelevant_dec r with ⟨mid0, rno0, hrel⟩ | hirr
  · rw [scrStep_entries_shape s r mid0 rno0 hrel mid rno,
      scrStep_entries_shape t r mid0 rno0 hrel mid rno]
    by_cases hslot : mid = mid0 ∧ rno = rno0
    · rw [if_pos hslot, if_pos hslot]
      have h1 := scrStep_entries_insert ss hpair s hGs r hr mid0 rno0 hrel
      have h2 := scrStep_entries_insert ss hpair t hGt r hr mid0 rno0 hrel
      rw [scrStep_entries_self s r mid0 rno0 hrel.1 hrel.2.1 hrel.2.2.1 hrel.2.2.2] at h1
      rw [scrStep_entries_self t r mid0 rno0 hrel.1 hrel.2.1 hrel.2.2.1 hrel.2.2.2] at h2
      rw [h1, h2]
      exact insNew_perm_cong _ _ _ (hE mid0 rno0)
    · rw [if_neg hslot, if_neg hslot]
      exact hE mid rno
  · rw [scrStep_entries_irrelevant s r hirr mid rno,
      scrStep_entries_irrelevant t r hirr mid rno]
    exact hE mid rno

theorem scrStep_comm_perm (ss : List ScrRow)
    (hpair : ∀ a ∈ ss, ∀ b ∈ ss, scrCompat a b)
    (s : Meetings) (r1 r2 : ScrRow) (h1 : r1 ∈ ss) (h2 : r2 ∈ ss)
    (hG : entriesFromRows ss s) :
    ∀ mid rno, (entriesOf (scrStep (scrStep s r1) r2) mid rno).Perm
      (entriesOf (scrStep (scrStep s r2) r1) mid rno) := by
  intro mid rno
  rcases scrRelevant_dec r1 with ⟨m1, n1, hrel1⟩ | hirr1
  · rcases scrRelevant_dec r2 with ⟨m2, n2, hrel2⟩ | hirr2
    · by_cases hslots : m1 = m2 ∧ n1 = n2
      · rcases hslots with ⟨rfl, rfl⟩
        rcases hpair r1 h1 r2 h2 ⟨hrel1.2.2.1, hrel1.2.2.2, hrel2.2.2.1,
            hrel2.2.2.2, (by rw [hrel1.1]; simp), (by rw [hrel1.2.1]; simp),
            hrel1.1.trans hrel2.1.symm, hrel1.2.1.trans hrel2.2.1.symm⟩
          with hre | ⟨hnk, hnoshare⟩
        · subst hre; exact List.Perm.refl _
        · have hG1 : entriesFromRows ss (scrStep s r1) :=
            scrStep_preserves_fromRows ss s r1 h1 hG
          have hG2 : entriesFromRows ss (scrStep s r2) :=
            scrStep_preserves_fromRows ss s r2 h2 hG
          have hne : entryOfRow r1 ≠ entryOfRow r2 := by
            intro hq
            exact hnk (by rw [hq])
          by_cases hslot : mid = m1 ∧ rno = n1
          · rcases hslot with ⟨rfl, rfl⟩
            rw [scrStep_entries_insert ss hpair (scrStep s r1) hG1 r2 h2 mid rno hrel2,
              scrStep_entries_insert ss hpair (scrStep s r2) hG2 r1 h1 mid rno hrel1,
              scrStep_entries_insert ss hpair s hG r1 h1 mid rno hrel1,
              scrStep_entries_insert ss hpair s hG r2 h2 mid rno hrel2]
            exact insNew_comm_perm (entriesOf s mid rno) (entryOfRow r1) (entryOfRow r2) hne
          · rw [scrStep_entries_shape (scrStep s r1) r2 m1 n1 hrel2 mid rno, if_neg hslot,
              scrStep_entries_shape s r1 m1 n1 hrel1 mid rno, if_neg hslot,
              scrStep_entries_shape (scrStep s r2) r1 m1 n1 hrel1 mid rno, if_neg hslot,
              scrStep_entries_shape s r2 m1 n1 hrel2 mid rno, if_neg hslot]
      · have heq : entriesOf (scrStep (scrStep s r1) r2) mid rno =
            entriesOf (scrStep (scrStep s r2) r1) mid rno := by
          rw [scrStep_entries_shape (scrStep s r1) r2 m2 n2 hrel2 mid rno,
            scrStep_entries_shape (scrStep s r2) r1 m1 n1 hrel1 mid rno]
          by_cases hq2 : mid = m2 ∧ rno = n2
          · have hq1 : ¬(mid = m1 ∧ rno = n1) := by
              rintro ⟨rfl, rfl⟩
              rcases hq2 with ⟨rfl, rfl⟩
              exact hslots ⟨rfl, rfl⟩
            rw [if_pos hq2, if_neg hq1,
              scrStep_entries_shape s r1 m1 n1 hrel1 m2 n2,
              scrStep_entries_shape s r2 m2 n2 hrel2 mid rno, if_pos hq2]
            rcases hq2 with ⟨rfl, rfl⟩
            rw [if_neg (fun hq => hq1 ⟨hq.1, hq.2⟩)]
          · rw [if_neg hq2]
            by_cases hq1 : mid = m1 ∧ rno = n1
            · rw [if_pos hq1,
                scrStep_entries_shape s r1 m1 n1 hrel1 mid rno, if_pos hq1,
                scrStep_entries_shape s r2 m2 n2 hrel2 m1 n1]
              rcases hq1 with ⟨rfl, rfl⟩
              rw [if_neg (fun hq => hq2 ⟨hq.1, hq.2⟩)]
            · rw [if_neg hq1,
                scrStep_entries_shape s r1 m1 n1 hrel1 mid rno, if_neg hq1,
                scrStep_entries_shape s r2 m2 n2 hrel2 mid rno, if_neg hq2]
        rw [heq]
    · have heq : entriesOf (scrStep (scrStep s r1) r2) mid rno =
          entriesOf (scrStep (scrStep s r2) r1) mid rno := by
        rw [scrStep_entries_irrelevant (scrStep s r1) r2 hirr2 mid rno,
          scrStep_entries_shape s r1 m1 n1 hrel1 mid rno,
          scrStep_entries_shape (scrStep s r2) r1 m1 n1 hrel1 mid rno]
        by_cases hq1 : mid = m1 ∧ rno = n1
        · rw [if_pos hq1, if_pos hq1,
            scrStep_entries_irrelevant s r2 hirr2 m1 n1]
        · rw [if_neg hq1, if_neg hq1,
            scrStep_entries_irrelevant s r2 hirr2 mid rno]
      rw [heq]
  · rcases scrRelevant_dec r2 with ⟨m2, n2, hrel2⟩ | hirr2
    · have heq : entriesOf (scrStep (scrStep s r1) r2) mid rno =
          entriesOf (scrStep (scrStep s r2) r1) mid rno := by
        rw [scrStep_entries_irrelevant (scrStep s r2) r1 hirr1 mid rno,
          scrStep_entries_shape s r2 m2 n2 hrel2 mid rno,
          scrStep_entries_shape (scrStep s r1) r2 m2 n2 hrel2 mid rno]
        by_cases hq2 : mid = m2 ∧ rno = n2
        · rw [if_pos hq2, if_pos hq2,
            scrStep_entries_irrelevant s r1 hirr1 m2 n2]
        · rw [if_neg hq2, if_neg hq2,
            scrStep_entries_irrelevant s r1 hirr1 mid rno]
      rw [heq]
    · have heq : entriesOf (scrStep (scrStep s r1) r2) mid rno =
          entriesOf (scrStep (scrStep s r2) r1) mid rno := by
        rw [scrStep_entries_irrelevant (scrStep s r1) r2 hirr2 mid rno,
          scrStep_entries_irrelevant s r1 hirr1 mid rno,
          scrStep_entries_irrelevant (scrStep s r2) r1 hirr1 mid rno,
          scrStep_entries_irrelevant s r2 hirr2 mid rno]
      rw [heq]

theorem scrFold_perm_entries (ss ss' : List ScrRow) (p : ss.Perm ss')
    (hpair : ∀ a ∈ ss, ∀ b ∈ ss, scrCompat a b)
    (s : Meetings) (hG : entriesFromRows ss s) :
    ∀ mid rno, (entriesOf (scrFold s ss) mid rno).Perm
      (entriesOf (scrFold s ss') mid rno) :=
  foldl_perm_equiv scrStep
    (fun s t => ∀ mid rno, (entriesOf s mid rno).Perm (entriesOf t mid rno))
    (entriesFromRows ss) (fun a => a ∈ ss) scrCompat
    (fun s mid rno => List.Perm.refl _)
    (fun a b c hab hbc mid rno => (hab mid rno).trans (hbc mid rno))
    (fun s a hGa ha => scrStep_preserves_fromRows ss s a ha hGa)
    (fun s t a hE hGs hGt ha => scrStep_cong_perm ss hpair s t a ha hGs hGt hE)
    (fun s a b hGa ha hb _ _ => scrStep_comm_perm ss hpair s a b ha hb hGa)
    p (fun a ha => ha) hpair s hG

theorem scrFold_cong_entries (ss0 : List ScrRow)
    (hpair : ∀ a ∈ ss0, ∀ b ∈ ss0, scrCompat a b)
    (l : List ScrRow) (hl : ∀ a ∈ l, a ∈ ss0)
    (s t : Meetings) (hGs : entriesFromRows ss0 s) (hGt : entriesFromRows ss0 t)
    (hE : ∀ mid rno, (entriesOf s mid rno).Perm (entriesOf t mid rno)) :
    ∀ mid rno, (entriesOf (scrFold s l) mid rno).Perm
      (entriesOf (scrFold t l) mid rno) :=
  foldl_E_cong scrStep
    (fun s t => ∀ mid rno, (entriesOf s mid rno).Perm (entriesOf t mid rno))
    (entriesFromRows ss0) (fun a => a ∈ ss0)
    (fun s a hGa ha => scrStep_preserves_fromRows ss0 s a ha hGa)
    (fun s t a hE hGs hGt ha => scrStep_cong_perm ss0 hpair s t a ha hGs hGt hE)
    l s t hE hGs hGt hl

/-! ## Conditions survive the scratchings pass; fresh folds have no entries -/

theorem scrStep_condOf (ms : Meetings) (r : ScrRow) :
    ∀ mid', condOf (scrStep ms r) mid' = condOf ms mid' := by
  intro mid'
  cases hm : parseInt r.meeting_id with
  | none => rw [scrStep_invalid ms r (Or.inl hm)]
  | some mid =>
    cases hn : parseInt r.race_number with
    | none => rw [scrStep_invalid ms r (Or.inr hn)]
    | some rno =>
      have hsame : ∀ (m : Meeting) (pre : Meetings),
          (∀ k, k ≠ mid → pre.find k = ms.find k) →
          m.conditions = ((ms.find mid).map Meeting.conditions).getD none →
          condOf (pre.set mid m) mid' = condOf ms mid' := by
        intro m pre hpre hco
        rw [condOf_set]
        by_cases hmid : mid' = mid
        · subst hmid
          rw [if_pos rfl, hco]
          cases hf : ms.find mid' <;> simp [condOf, hf]
        · rw [if_neg hmid]
          simp [condOf, hpre mid' hmid]
      simp only [scrStep, hm, hn]
      cases hfind : ms.find mid with
      | none =>
        simp only [Dict.setdefaultGet, hfind, freshMeetingOfScr, Dict.find_empty]
        cases hdrop : scrDropped r.scratched with
        | true =>
          simp only [if_true]
          exact hsame _ _ (fun k hk => by simp [Dict.find_set, hk]) (by simp [hfind])
        | false =>
          simp only [Bool.false_eq_true, if_false]
          cases hident : (strFalsy (entryOfRow r).horse_name &&
              (entryOfRow r).runner_id.isNone) with
          | true =>
            simp only [if_true]
            exact hsame _ _ (fun k hk => by simp [Dict.find_set, hk]) (by simp [hfind])
          | false =>
            simp only [Bool.false_eq_true, if_false]
            exact hsame _ _ (fun k hk => by simp [Dict.find_set, hk]) (by simp [hfind])
      | some m =>
        simp only [Dict.setdefaultGet, hfind]
        cases hdrop : scrDropped r.scratched with
        | true =>
          simp only [if_true]
          exact hsame _ _ (fun k hk => by simp [Dict.find_set, hk]) (by simp [hfind])
        | false =>
          simp only [Bool.false_eq_true, if_false]
          cases hident : (strFalsy (entryOfRow r).horse_name &&
              (entryOfRow r).runner_id.isNone) with
          | true =>
            simp only [if_true]
            exact hsame _ _ (fun k hk => by simp [Dict.find_set, hk]) (by simp [hfind])
          | false =>
            simp only [Bool.false_eq_true, if_false]
            exact hsame _ _ (fun k hk => by simp [Dict.find_set, hk]) (by simp [hfind])

theorem scrFold_condOf (ss : List ScrRow) :
    ∀ (s : Meetings) (mid'), condOf (scrFold s ss) mid' = condOf s mid' := by
  induction ss with
  | nil => intro s mid'; rfl
  | cons r rest ih =>
    intro s mid'
    show condOf (scrFold (scrStep s r) rest) mid' = condOf s mid'
    rw [ih (scrStep s r) mid', scrStep_condOf s r mid']

theorem condFold_entries_nil (cs : List CondRow) :
    ∀ mid rno, entriesOf (condFold Dict.empty cs) mid rno = [] := by
  have := foldl_preserve (fun s => ∀ mid rno, entriesOf s mid rno = []) condStep
    ?_ cs Dict.empty ?_
  · exact this
  · intro s c hs mid rno
    rw [condStep_entries s c mid rno]
    exact hs mid rno
  · intro mid rno
    exact entriesOf_none Dict.empty mid rno rfl

theorem condOf_eq_view (ms : Meetings) (mid : Int) :
    condOf ms mid = (condVenueView ms mid).bind (fun p => p.2) := by
  cases h : ms.find mid with
  | none => simp [condOf, condVenueView, h]
  | some m => simp [condOf, condVenueView, h]

/-! ## Claim C2: order independence of the merge -/

/-- C2 (amended): for condition rows that agree on venue per meeting and
carry pairwise-distinct timestamps (or are equal), and scratching rows
whose surviving entries in one race have pairwise-distinct identity keys
(or are equal), applying the condition fold and the scratching fold in any
permutation of arrival order yields the same Conditions snapshot per
meeting and the same scratched-runner entries per race up to order.
(Unconditional order independence, as claimed, fails: untimestamped
condition rows are last-writer-wins.) -/
theorem c2_merge_order_independent (cs cs' : List CondRow) (ss ss' : List ScrRow)
    (pc : cs.Perm cs') (ps : ss.Perm ss')
    (hc : ∀ a ∈ cs, ∀ b ∈ cs, condCompat a b)
    (hs : ∀ a ∈ ss, ∀ b ∈ ss, scrCompat a b) :
    (∀ mid, condOf (pipelineFold cs ss) mid = condOf (pipelineFold cs' ss') mid) ∧
    (∀ mid rno, (entriesOf (pipelineFold cs ss) mid rno).Perm
      (entriesOf (pipelineFold cs' ss') mid rno)) := by
  have hG1 : entriesFromRows ss (condFold Dict.empty cs) := by
    intro mid rno e he
    rw [condFold_entries_nil cs mid rno] at he
    cases he
  have hG2 : entriesFromRows ss (condFold Dict.empty cs') := by
    intro mid rno e he
    rw [condFold_entries_nil cs' mid rno] at he
    cases he
  constructor
  · intro mid
    show condOf (scrFold (condFold Dict.empty cs) ss) mid =
      condOf (scrFold (condFold Dict.empty cs') ss') mid
    rw [scrFold_condOf ss (condFold Dict.empty cs) mid,
      scrFold_condOf ss' (condFold Dict.empty cs') mid,
      condOf_eq_view, condOf_eq_view, condFold_perm_view cs cs' pc hc mid]
  · intro mid rno
    show (entriesOf (scrFold (condFold Dict.empty cs) ss) mid rno).Perm
      (entriesOf (scrFold (condFold Dict.empty cs') ss') mid rno)
    have step1 := scrFold_perm_entries ss ss' ps hs (condFold Dict.empty cs) hG1 mid rno
    have step2 := scrFold_cong_entries ss hs ss' (fun a ha => ps.mem_iff.mpr ha)
      (condFold Dict.empty cs) (condFold Dict.empty cs') hG1 hG2
      (fun mid' rno' => by
        rw [condFold_entries_nil cs mid' rno', condFold_entries_nil cs' mid' rno'])
      mid rno
    exact step1.trans step2

/-- Witness for C2 at concrete rows: two timestamped condition rows for
meeting 1 and two distinct-identity scratching rows for race 3, in both
orders. -/
theorem c2_merge_order_independent_witness :
    condOf (pipelineFold [condRowFineT1, condRowRainT2] [rowFastLad55, rowOtherScr]) 1 =
      condOf (pipelineFold [condRowRainT2, condRowFineT1] [rowOtherScr, rowFastLad55]) 1 ∧
    (entriesOf (pipelineFold [condRowFineT1, condRowRainT2]
        [rowFastLad55, rowOtherScr]) 1 3).Perm
      (entriesOf (pipelineFold [condRowRainT2, condRowFineT1]
        [rowOtherScr, rowFastLad55]) 1 3) :=
  ⟨(c2_merge_order_independent [condRowFineT1, condRowRainT2]
      [condRowRainT2, condRowFineT1] [rowFastLad55, rowOtherScr]
      [rowOtherScr, rowFastLad55]
      (List.Perm.swap condRowRainT2 condRowFineT1 [])
      (List.Perm.swap rowOtherScr rowFastLad55 [])
      (by decide) (by decide)).1 1,
   (c2_merge_order_independent [condRowFineT1, condRowRainT2]
      [condRowRainT2, condRowFineT1] [rowFastLad55, rowOtherScr]
      [rowOtherScr, rowFastLad55]
      (List.Perm.swap condRowRainT2 condRowFineT1 [])
      (List.Perm.swap rowOtherScr rowFastLad55 [])
      (by decide) (by decide)).2 1 3⟩

/-- Counterexample to C2 as stated: two untimestamped condition rows for
one meeting produce different Conditions snapshots in the two arrival
orders (last writer wins when no timestamp gates replacement). -/
theorem c2_merge_order_independent_counterexample :
    condOf (pipelineFold [condRowFine, condRowRain] []) 1 ≠
      condOf (pipelineFold [condRowRain, condRowFine] []) 1 := by
  decide
